import Mathlib

/-!
Verification development for the tactical battle core of a small 2D RPG.

The definitions below are a shallow embedding of the Python sources:
  * `entities.py` — the `Unit` data entity,
  * `battle.py`   — the `Battle` session: movement reachability (BFS),
                    attack-range resolution, attack resolution, the
                    turn/phase state machine and the enemy AI,
  * `_2DRPG.py`   — `Game.end_battle`, the session-termination handshake
                    with the persistent overworld.

Python machine-level details that are pure presentation (sprite sheets,
animation counters, colors, rendering, audio) are omitted: none of the
combat logic reads them.  Python `int` is modelled by `Int`; `bool` by
`Bool`; Python lists by `List`; the Python `set`s used for valid moves /
valid attacks are modelled as duplicate-free-by-construction `List`s
(membership is the only operation the code performs on them).
Object identity (`u == self.selected_unit`) is modelled by passing the
list of *other* units explicitly; mutation of a unit held in a roster is
modelled by `List.set` at the unit's roster index.
-/

namespace RPG

/-- `config.py`: `BATTLE_GRID_W = 8`. -/
def BATTLE_GRID_W : Int := 8

/-- `config.py`: `BATTLE_GRID_H = 6`. -/
def BATTLE_GRID_H : Int := 6

/-- `entities.py` `Unit.__init__` (combat-relevant fields only; sprite and
animation fields are presentation-only and never read by battle logic).
`attack_range` / `min_range` are not set in `__init__`; the battle reads
them with `getattr(u, 'attack_range', 1)` so their effective default is 1,
which is how `Unit.create` initialises them. -/
structure Unit where
  name : String
  x : Int
  y : Int
  hp : Int
  max_hp : Int
  atk : Int
  movement : Nat
  attack_range : Nat
  min_range : Nat
  has_acted : Bool
  facing : String
deriving Repr, DecidableEq

/-- `Unit(name, x, y, hp, atk, movement, ...)`: `max_hp` is initialised to
the incoming `hp`, `has_acted` to `False`, facing to `"down"`. -/
def Unit.create (name : String) (x y hp atk : Int) (movement : Nat) : Unit :=
  { name := name, x := x, y := y, hp := hp, max_hp := hp, atk := atk,
    movement := movement, attack_range := 1, min_range := 1,
    has_acted := false, facing := "down" }

instance : Inhabited Unit := ⟨Unit.create "" 0 0 0 0 0⟩

/-- `entities.py`: `is_alive(self): return self.hp > 0`. -/
def Unit.is_alive (u : Unit) : Bool := 0 < u.hp

/-- `entities.py`: `distance_to`: Manhattan distance
`abs(self.x - other.x) + abs(self.y - other.y)`. -/
def Unit.distance_to (u v : Unit) : Nat :=
  (u.x - v.x).natAbs + (u.y - v.y).natAbs

/-- `battle.py` `Battle._in_bounds`. -/
def in_bounds (x y : Int) : Bool :=
  0 ≤ x && x < BATTLE_GRID_W && 0 ≤ y && y < BATTLE_GRID_H

/-- `any(u.x == x and u.y == y and u.is_alive() for u in units)`. -/
def occupied_by_living (units : List Unit) (x y : Int) : Bool :=
  units.any (fun u => u.x == x && u.y == y && u.is_alive)

/-- The neighbour offsets tried by the BFS frontier expansion,
in source order: `[(1, 0), (-1, 0), (0, 1), (0, -1)]`. -/
def moveDirs : List (Int × Int) := [(1, 0), (-1, 0), (0, 1), (0, -1)]

/-- One iteration of the inner `for dx, dy in ...` loop of
`_compute_valid_moves`: skip the neighbour if out of bounds, already
visited, or occupied by a living enemy; otherwise record its distance in
`visited` and push it on the queue.  State is `(visited, queued)`. -/
def bfs_step (enemies : List Unit) (c : Int × Int) (dist : Nat)
    (st : List ((Int × Int) × Nat) × List (Int × Int)) (d : Int × Int) :
    List ((Int × Int) × Nat) × List (Int × Int) :=
  let nx := c.1 + d.1
  let ny := c.2 + d.2
  if !(in_bounds nx ny) then st
  else if (st.1.lookup (nx, ny)).isSome then st
  else if occupied_by_living enemies nx ny then st
  else (((nx, ny), dist + 1) :: st.1, st.2 ++ [(nx, ny)])

/-- The `while q:` loop of `_compute_valid_moves`.  `others` is every unit
of both rosters except the selected one (the Python loop skips
`u == self.selected_unit` by object identity); `enemies` is the enemy
roster, which blocks traversal.  A popped tile is added to the result iff
no other living unit stands on it; expansion stops once the popped tile's
recorded distance reaches `maxdist`.  The `fuel` argument only bounds the
number of loop iterations: each in-bounds tile is enqueued at most once
(the `visited` guard), so any fuel ≥ 50 > 8*6 + 1 makes the recursion
behave exactly like the unbounded Python loop. -/
def bfs (others enemies : List Unit) (maxdist : Nat) :
    Nat → List (Int × Int) → List ((Int × Int) × Nat) →
    List (Int × Int) → List (Int × Int)
  | 0, _, _, acc => acc
  | _ + 1, [], _, acc => acc
  | fuel + 1, c :: q, visited, acc =>
    let dist := (visited.lookup c).getD 0
    let acc' := if occupied_by_living others c.1 c.2 then acc else acc ++ [c]
    if maxdist ≤ dist then bfs others enemies maxdist fuel q visited acc'
    else
      let st := moveDirs.foldl (bfs_step enemies c dist) (visited, [])
      bfs others enemies maxdist fuel (q ++ st.2) st.1 acc'

/-- `battle.py` `Battle._compute_valid_moves` for a selected unit:
BFS from the unit's tile bounded by its `movement`. -/
def compute_valid_moves (selected : Unit) (others enemies : List Unit) :
    List (Int × Int) :=
  bfs others enemies selected.movement 50
    [(selected.x, selected.y)] [((selected.x, selected.y), 0)] []

/-- `battle.py` `Battle._compute_valid_attacks`: positions of living
enemies whose Manhattan distance lies in `[min_range, attack_range]`. -/
def compute_valid_attacks (selected : Unit) (enemies : List Unit) :
    List (Int × Int) :=
  (enemies.filter (fun e =>
      e.is_alive && selected.min_range ≤ selected.distance_to e
        && selected.distance_to e ≤ selected.attack_range)).map
    (fun e => (e.x, e.y))

/-- Substring test on `List Char`, used to model Python's `"s" in name`. -/
def str_contains_aux (pat : List Char) : List Char → Bool
  | [] => pat.isEmpty
  | c :: cs => pat.isPrefixOf (c :: cs) || str_contains_aux pat cs

/-- Python `pat in s` on strings. -/
def str_contains (s pat : String) : Bool :=
  str_contains_aux pat.toList s.toList

/-- `_attack`: `weapon = "bow" if "Archer" in attacker.name else "magic"
if "Mage" in attacker.name else "sword"`. -/
def weapon_for (name : String) : String :=
  if str_contains name "Archer" then "bow"
  else if str_contains name "Mage" then "magic"
  else "sword"

/-- `battle.py` `Battle._attack`: subtract `atk` from the defender's hp,
build the hit message, clamp hp at 0 and append the defeat message when
it drops to 0 or below.  Returns the updated defender and the message. -/
def attack (attacker defender : Unit) : Unit × String :=
  let hp1 := defender.hp - attacker.atk
  let weapon := weapon_for attacker.name
  let base :=
    if 1 < attacker.attack_range then
      attacker.name ++ " attacks with " ++ weapon ++ " for "
        ++ toString attacker.atk ++ "!"
    else
      attacker.name ++ " hits " ++ defender.name ++ " for "
        ++ toString attacker.atk ++ "!"
  if hp1 ≤ 0 then
    ({ defender with hp := 0 }, base ++ " " ++ defender.name ++ " defeated!")
  else ({ defender with hp := hp1 }, base)

/-- The inline attack in `Battle.enemy_turn` (lines 307–312): same hp
arithmetic as `_attack`, with the melee message shape. -/
def enemy_hit (e target : Unit) : Unit × String :=
  let hp1 := target.hp - e.atk
  let base := e.name ++ " hits " ++ target.name ++ " for "
    ++ toString e.atk ++ "!"
  if hp1 ≤ 0 then
    ({ target with hp := 0 }, base ++ " " ++ target.name ++ " defeated!")
  else ({ target with hp := hp1 }, base)

/-- The `Battle.STATE_*` constants. -/
inductive BState where
  | player_select
  | player_move
  | player_action_menu
  | player_attack
  | enemy_turn
  | victory
  | defeat
deriving Repr, DecidableEq

/-- `battle.py` `Battle` session state (combat-relevant fields; sprite
sheets, images, the game back-pointer and the unused `turn_queue` deque
are presentation/bookkeeping that no combat decision reads).
`selected_unit` is the roster index of the selected player unit
(Python holds an object reference into `player_units`). -/
structure Battle where
  player_units : List Unit
  enemy_units : List Unit
  state : BState
  selected_unit : Option Nat
  cursor_x : Int
  cursor_y : Int
  valid_moves : List (Int × Int)
  valid_attacks : List (Int × Int)
  message : String
  original_pos : Option (Int × Int)
deriving Repr

/-- `self.player_units + self.enemy_units`. -/
def all_units (b : Battle) : List Unit := b.player_units ++ b.enemy_units

/-- `battle.py` `Battle.__init__`: fixed four-unit party and three-unit
enemy roster.  With `BATTLE_GRID_W = 8`, `BATTLE_GRID_H = 6` the
hard-coded positions evaluate to: hero (1,3), Knight (1,2), Archer (0,3),
Mage (0,4); boss (6,3), Goblin (6,2), Goblin (5,4).  The hero copies the
overworld unit's `name`, `hp`, `atk` and `facing`; the boss copies the
overworld enemy's `name`, `hp`, `atk`.  Attack ranges are then assigned
per unit type exactly as in the source. -/
def init_battle (heroName : String) (heroHp heroAtk : Int) (heroFacing : String)
    (enemyName : String) (enemyHp enemyAtk : Int) : Battle :=
  let hero := { Unit.create heroName 1 3 heroHp heroAtk 4 with
    attack_range := 1, facing := heroFacing }
  let knight := { Unit.create "Knight" 1 2 25 6 3 with attack_range := 1 }
  let archer := { Unit.create "Archer" 0 3 15 5 4 with
    attack_range := 3, min_range := 2 }
  let mage := { Unit.create "Mage" 0 4 12 7 3 with
    attack_range := 2, min_range := 1 }
  let boss := { Unit.create enemyName 6 3 enemyHp enemyAtk 3 with
    attack_range := 1, min_range := 1 }
  let g1 := { Unit.create "Goblin" 6 2 8 3 3 with
    attack_range := 1, min_range := 1 }
  let g2 := { Unit.create "Goblin" 5 4 8 3 3 with
    attack_range := 1, min_range := 1 }
  { player_units := [hero, knight, archer, mage],
    enemy_units := [boss, g1, g2],
    state := .player_select,
    selected_unit := none,
    cursor_x := 4, cursor_y := 3,
    valid_moves := [], valid_attacks := [],
    message := "Select a unit to move",
    original_pos := none }

/-- The discrete key inputs the battle consumes. -/
inductive Key where
  | escape | left | right | up | down | enter | space
deriving Repr, DecidableEq

/-- An external stimulus: a key event, or the deferred
`USEREVENT + 1` timer that fires `enemy_turn` (see `Game.main_loop`). -/
inductive Ev where
  | key : Key → Ev
  | timer
deriving Repr, DecidableEq

/-- Index of the first unit satisfying `p` (models the Python generator
`next((u for u in roster if ...), None)`, which yields an object
reference; roster mutation through that reference is modelled via the
index). -/
def find_idx (p : Unit → Bool) : List Unit → Option Nat
  | [] => none
  | a :: l => if p a then some 0 else (find_idx p l).map (· + 1)

/-- The player roster with the unit at index `i` removed: the Python
`for u in ...: if u == self.selected_unit: continue` identity skip,
plus the enemy roster. -/
def others_of (b : Battle) (i : Nat) : List Unit :=
  b.player_units.eraseIdx i ++ b.enemy_units

/-- ESC during `STATE_PLAYER_MOVE` / `STATE_PLAYER_ATTACK` with a bound
unit and snapshot: restore the snapshot position and drop back to
selection. -/
def cancel_selection (b : Battle) (i : Nat) (p : Int × Int) : Battle :=
  let u := b.player_units.getD i default
  { b with
    player_units := b.player_units.set i { u with x := p.1, y := p.2 },
    state := .player_select, selected_unit := none,
    message := "Action cancelled - Select a unit" }

/-- The ESC branch of `handle_event`: cancel if a move/attack with a bound
unit and snapshot is in progress, otherwise forfeit (straight to
`STATE_DEFEAT`). -/
def handle_escape (b : Battle) : Battle :=
  match b.state, b.selected_unit, b.original_pos with
  | .player_move, some i, some p => cancel_selection b i p
  | .player_attack, some i, some p => cancel_selection b i p
  | _, _, _ => { b with state := .defeat }

/-- `Battle._after_player_action`: victory check first, then either hand
over to the enemy phase (every player unit has acted or is dead) or ask
for the next unit. -/
def after_player_action (b : Battle) : Battle :=
  if !(b.enemy_units.any Unit.is_alive) then
    { b with state := .victory, message := "Victory!" }
  else if b.player_units.all (fun p => p.has_acted || !p.is_alive) then
    { b with
      state := .enemy_turn, message := "Enemy turn...",
      selected_unit := none, valid_attacks := [] }
  else
    { b with
      state := .player_select, selected_unit := none,
      valid_attacks := [], message := "Select next unit" }

/-- Arrow keys: clamp the cursor to the grid. -/
def move_cursor (b : Battle) (k : Key) : Battle :=
  match k with
  | .left => { b with cursor_x := max 0 (b.cursor_x - 1) }
  | .right => { b with cursor_x := min (BATTLE_GRID_W - 1) (b.cursor_x + 1) }
  | .up => { b with cursor_y := max 0 (b.cursor_y - 1) }
  | .down => { b with cursor_y := min (BATTLE_GRID_H - 1) (b.cursor_y + 1) }
  | _ => b

/-- RETURN in `STATE_PLAYER_SELECT`: `_get_player_unit_at` finds the first
living, not-yet-acted player unit under the cursor; on success bind it,
snapshot its position, compute its reachable set and enter
`STATE_PLAYER_MOVE`. -/
def select_enter (b : Battle) : Battle :=
  match find_idx (fun u =>
      u.x == b.cursor_x && u.y == b.cursor_y && u.is_alive && !u.has_acted)
    b.player_units with
  | some i =>
    let u := b.player_units.getD i default
    { b with
      selected_unit := some i, original_pos := some (u.x, u.y),
      state := .player_move,
      valid_moves := compute_valid_moves u (others_of b i) b.enemy_units,
      message := u.name ++ " selected - Choose destination" }
  | none => { b with message := "No unit here or already acted" }

/-- RETURN in `STATE_PLAYER_MOVE`: relocate the bound unit to the cursor
tile when it is a valid move, compute its targets and enter
`STATE_PLAYER_ATTACK`; otherwise reject with a message.  (The `none`
branch cannot arise in states reachable by the game: Python would
dereference `self.selected_unit = None` there.) -/
def move_enter (b : Battle) : Battle :=
  match b.selected_unit with
  | none => b
  | some i =>
    if (b.cursor_x, b.cursor_y) ∈ b.valid_moves then
      let u := b.player_units.getD i default
      let u' := { u with x := b.cursor_x, y := b.cursor_y }
      let msg :=
        if 1 < u'.attack_range then
          u'.name ++ " - Select target (range " ++ toString u'.min_range
            ++ "-" ++ toString u'.attack_range ++ ") or Space to skip"
        else u'.name ++ " - Select target or Space to skip"
      { b with
        player_units := b.player_units.set i u',
        state := .player_attack,
        valid_attacks := compute_valid_attacks u' b.enemy_units,
        message := msg }
    else { b with message := "Cannot move there" }

/-- RETURN in `STATE_PLAYER_ATTACK`: `_enemy_at` looks up a living enemy
under the cursor; if one is there and the tile is a legal target, resolve
the attack, mark the attacker acted and run the post-action check;
otherwise report why nothing happened.  (As in `move_enter`, the
`selected_unit = none` branch is unreachable in game-reachable states.) -/
def attack_enter (b : Battle) : Battle :=
  match find_idx (fun e =>
      e.x == b.cursor_x && e.y == b.cursor_y && e.is_alive) b.enemy_units with
  | some j =>
    if (b.cursor_x, b.cursor_y) ∈ b.valid_attacks then
      match b.selected_unit with
      | none => b
      | some i =>
        let atkU := b.player_units.getD i default
        let defU := b.enemy_units.getD j default
        let r := attack atkU defU
        after_player_action
          { b with
            enemy_units := b.enemy_units.set j r.1,
            player_units := b.player_units.set i { atkU with has_acted := true },
            message := r.2 }
    else { b with message := "Target out of range - Press Space to skip" }
  | none => { b with message := "No target - Press Space to skip" }

/-- SPACE in `STATE_PLAYER_ATTACK`: end the bound unit's turn without
attacking, then run the post-action check. -/
def space_skip (b : Battle) : Battle :=
  match b.selected_unit with
  | none => b
  | some i =>
    let u := b.player_units.getD i default
    after_player_action
      { b with
        player_units := b.player_units.set i { u with has_acted := true },
        message := u.name ++ " ended turn" }

/-- `Battle.handle_event` for a KEYDOWN: terminal states ignore keys
(RETURN there only calls `game.end_battle`, modelled by
`confirm_outcome`); ESC is handled first; cursor / RETURN / SPACE are
only handled in the three player sub-phases. -/
def handle_key (b : Battle) (k : Key) : Battle :=
  if b.state = .victory ∨ b.state = .defeat then b
  else
    match k with
    | .escape => handle_escape b
    | .enter =>
      if b.state = .player_select then select_enter b
      else if b.state = .player_move then move_enter b
      else if b.state = .player_attack then attack_enter b
      else b
    | .space => if b.state = .player_attack then space_skip b else b
    | _ =>
      if b.state = .player_select ∨ b.state = .player_move
          ∨ b.state = .player_attack then
        move_cursor b k
      else b

/-- Stable Python `min(xs, key=f)`: keep the current best, replace it only
on a strictly smaller key, so the first minimum encountered wins. -/
def py_min {α : Type} (f : α → Nat) : α → List α → α
  | best, [] => best
  | best, x :: xs => py_min f (if f x < f best then x else best) xs

/-- Indices of living player units, in roster order: the
`living_players = [p for p in self.player_units if p.is_alive()]` list,
represented by roster indices so that the subsequent in-place mutation of
the chosen target can be modelled with `List.set`. -/
def living_player_idxs (ps : List Unit) : List Nat :=
  (List.range ps.length).filter (fun j => (ps.getD j default).is_alive)

/-- `target = min(living_players, key=lambda p: e.distance_to(p))`,
returning the target's roster index (`none` iff no living player unit
remains). -/
def choose_target (e : Unit) (ps : List Unit) : Option Nat :=
  match living_player_idxs ps with
  | [] => none
  | j :: js => some (py_min (fun k => e.distance_to (ps.getD k default)) j js)

/-- `dx = 1 if target > e else -1 if target < e else 0` (per axis). -/
def step_toward (src dst : Int) : Int :=
  if src < dst then 1 else if dst < src then -1 else 0

/-- The preferred candidate tiles of the enemy AI, in source order:
diagonal-toward-target, then horizontal step, then vertical step. -/
def preferred_candidates (e target : Unit) : List (Int × Int) :=
  let dx := step_toward e.x target.x
  let dy := step_toward e.y target.y
  [(e.x + dx, e.y + dy), (e.x + dx, e.y), (e.x, e.y + dy)]

/-- The fallback candidate tiles, in source order
`[(1,0), (-1,0), (0,1), (0,-1)]`: right, left, down, up. -/
def fallback_candidates (e : Unit) : List (Int × Int) :=
  [(e.x + 1, e.y), (e.x - 1, e.y), (e.x, e.y + 1), (e.x, e.y - 1)]

/-- A candidate tile is accepted iff in-bounds and not occupied by any
living unit (both rosters, the mover included — its own tile is never
free while it is alive). -/
def tile_free (units : List Unit) (n : Int × Int) : Bool :=
  in_bounds n.1 n.2 && !(occupied_by_living units n.1 n.2)

/-- The movement decision of `enemy_turn` for one non-adjacent enemy:
first free preferred candidate, else first free fallback candidate,
else stay (`none`). -/
def enemy_move_dest (e target : Unit) (units : List Unit) :
    Option (Int × Int) :=
  match (preferred_candidates e target).find? (tile_free units) with
  | some n => some n
  | none => (fallback_candidates e).find? (tile_free units)

/-- Applying the movement decision: `e.x, e.y = nx, ny` when a candidate
was accepted, no mutation otherwise (the `moved` flag stays false and the
unit stays put). -/
def apply_dest (e : Unit) : Option (Int × Int) → Unit
  | some n => { e with x := n.1, y := n.2 }
  | none => e

/-- The movement half of one enemy's action: apply the accepted candidate
tile (if any) to the enemy at roster index `i`; staying put leaves the
battle unchanged (only `moved` stays false). -/
def enemy_act_move (b : Battle) (i : Nat) (e target : Unit) : Battle :=
  match enemy_move_dest e target (all_units b) with
  | some n =>
    { b with
      enemy_units := b.enemy_units.set i { e with x := n.1, y := n.2 },
      message := e.name ++ " moved" }
  | none => b

/-- The body of the `for e in self.enemy_units:` loop of `enemy_turn` for
the enemy at roster index `i`.  Returns the updated battle and a flag
marking the early `return` taken when no living player unit remains. -/
def enemy_act (b : Battle) (i : Nat) : Battle × Bool :=
  let e := b.enemy_units.getD i default
  if !e.is_alive then (b, false)
  else
    match choose_target e b.player_units with
    | none => ({ b with state := .defeat, message := "Defeat..." }, true)
    | some t =>
      let target := b.player_units.getD t default
      if e.distance_to target = 1 then
        let r := enemy_hit e target
        ({ b with
            player_units := b.player_units.set t r.1, message := r.2 },
          false)
      else (enemy_act_move b i e target, false)

/-- The enemy loop over roster indices, short-circuiting on the early
`return`. -/
def enemy_loop (b : Battle) : List Nat → Battle × Bool
  | [] => (b, false)
  | i :: rest =>
    let r := enemy_act b i
    if r.2 then r else enemy_loop r.1 rest

/-- `for p in self.player_units: p.has_acted = False`. -/
def reset_acted (ps : List Unit) : List Unit :=
  ps.map (fun p => { p with has_acted := false })

/-- The cursor-parking loop at the end of `enemy_turn`: position the
cursor on the first living, not-yet-acted player unit (if any). -/
def enemy_turn_cursor (b2 : Battle) : Battle :=
  match b2.player_units.find? (fun p => p.is_alive && !p.has_acted) with
  | some p => { b2 with cursor_x := p.x, cursor_y := p.y }
  | none => b2

/-- The tail of `enemy_turn` after the per-enemy loop (reached only when
the loop did not `return` early): check for a player wipe, else reset
`has_acted`, park the cursor and go back to selection. -/
def enemy_turn_finish (b1 : Battle) : Battle :=
  if !(b1.player_units.any Unit.is_alive) then
    { b1 with state := .defeat, message := "Defeat..." }
  else
    { enemy_turn_cursor
        { b1 with player_units := reset_acted b1.player_units } with
      state := .player_select, message := "Your turn - Select a unit" }

/-- `Battle.enemy_turn`: run every enemy through `enemy_loop`; an early
`return` (all players dead mid-loop) ends the phase at once, otherwise
`enemy_turn_finish` runs. -/
def enemy_turn (b : Battle) : Battle :=
  if (enemy_loop b (List.range b.enemy_units.length)).2 then
    (enemy_loop b (List.range b.enemy_units.length)).1
  else enemy_turn_finish (enemy_loop b (List.range b.enemy_units.length)).1

/-- One external stimulus: a KEYDOWN through `handle_event`, or the
deferred timer through which `Game.main_loop` invokes
`battle.enemy_turn()` (note the main loop does *not* gate the timer on
the battle state). -/
def step (b : Battle) : Ev → Battle
  | .key k => handle_key b k
  | .timer => enemy_turn b

/-- `overworld.py` persistent state consulted at session boundaries:
the hero and the overworld enemy roster. -/
structure Overworld where
  player : Unit
  enemies : List Unit
deriving Repr

/-- The victory branch of `Game.end_battle`: `for e in enemies: if
e.is_alive(): e.hp = 0; break` — kill the first living overworld enemy. -/
def kill_first_alive : List Unit → List Unit
  | [] => []
  | e :: es => if e.is_alive then { e with hp := 0 } :: es
    else e :: kill_first_alive es

/-- `_2DRPG.py` `Game.end_battle(player_won, player_unit_copy)`: on
victory remove (hp := 0) one living overworld enemy; in all cases write
the battle copy's hp back onto the persistent hero. -/
def end_battle (ow : Overworld) (player_won : Bool) (copyU : Unit) :
    Overworld :=
  { player := { ow.player with hp := copyU.hp },
    enemies := if player_won then kill_first_alive ow.enemies else ow.enemies }

/-- RETURN on the victory/defeat screen:
`self.game.end_battle(self.state == Battle.STATE_VICTORY,
self.player_units[0])`. -/
def confirm_outcome (b : Battle) (ow : Overworld) : Overworld :=
  end_battle ow (decide (b.state = BState.victory))
    (b.player_units.getD 0 default)

/-- `Game.start_battle`: the session is constructed from the two colliding
overworld units (`Battle(self, player_unit, enemy_unit)` reads their
`name`, `hp`, `atk` and the hero's `facing`). -/
def start_battle (player_unit enemy_unit : Unit) : Battle :=
  init_battle player_unit.name player_unit.hp player_unit.atk
    player_unit.facing enemy_unit.name enemy_unit.hp enemy_unit.atk

/-- The battle states reachable from session construction by any sequence
of external stimuli (cursor moves, selections, moves, cancels, attacks,
skips, forfeit, enemy phases). -/
inductive Reached : Battle → Prop
  | init (player_unit enemy_unit : Unit) :
      Reached (start_battle player_unit enemy_unit)
  | step {b : Battle} (ev : Ev) : Reached b → Reached (step b ev)

/-- The guard of the two cancel arms of `handle_escape`: a move/attack is
in progress with a bound unit and a position snapshot.  ESC under this
condition is a per-unit cancel; under any other condition it is the
forfeit action. -/
def cancel_cond (b : Battle) : Prop :=
  (b.state = BState.player_move ∨ b.state = BState.player_attack)
  ∧ b.selected_unit.isSome = true ∧ b.original_pos.isSome = true

/-- RETURN during the attack phase actually resolves an attack: a living
enemy stands under the cursor and the cursor tile is a legal target. -/
def attack_landed (b : Battle) : Prop :=
  (find_idx (fun e =>
    e.x == b.cursor_x && e.y == b.cursor_y && e.is_alive)
    b.enemy_units).isSome = true
  ∧ (b.cursor_x, b.cursor_y) ∈ b.valid_attacks

/-- The stimulus completes a player action (and hence runs
`_after_player_action`): SPACE (skip) or a landing RETURN during the
attack phase of a bound unit. -/
def player_action_completed (b : Battle) (ev : Ev) : Prop :=
  b.state = BState.player_attack ∧ b.selected_unit.isSome = true
  ∧ (ev = Ev.key Key.space ∨ (ev = Ev.key Key.enter ∧ attack_landed b))

/-- The occupancy invariant: no two living units (across both rosters)
stand on the same grid tile. -/
def NoOverlap (l : List Unit) : Prop :=
  ∀ i j, i < l.length → j < l.length → i ≠ j →
    (l.getD i default).is_alive = true →
    (l.getD j default).is_alive = true →
    ((l.getD i default).x, (l.getD i default).y)
      ≠ ((l.getD j default).x, (l.getD j default).y)

/-- Tile `t` is not occupied by any living unit of `l` other than the one
at index `i`. -/
def tile_clear (l : List Unit) (i : Nat) (t : Int × Int) : Prop :=
  ∀ j, j < l.length → j ≠ i → (l.getD j default).is_alive = true →
    ((l.getD j default).x, (l.getD j default).y) ≠ t

/-- The inductive invariant of the battle state machine: occupancy, plus
— during a move/attack sub-phase — a bound unit with a snapshot position
free of other living units (so cancel is safe) and, during the move
sub-phase, a reachable set whose tiles are free of other living units
(so confirming a move is safe). -/
def BattleInv (b : Battle) : Prop :=
  NoOverlap (all_units b)
  ∧ ((b.state = BState.player_move ∨ b.state = BState.player_attack) →
      ∃ i p, b.selected_unit = some i ∧ i < b.player_units.length
        ∧ b.original_pos = some p ∧ tile_clear (all_units b) i p)
  ∧ (b.state = BState.player_move →
      ∃ i, b.selected_unit = some i ∧ i < b.player_units.length
        ∧ ∀ t ∈ b.valid_moves, tile_clear (all_units b) i t)

/-! ### Basic facts about attack resolution and range resolution -/

theorem max_zero_sub_form (hp atk : Int) :
    (if hp - atk ≤ 0 then (0 : Int) else hp - atk) = max 0 (hp - atk) := by
  split
  · exact (max_eq_left (by omega)).symm
  · exact (max_eq_right (by omega)).symm

/-- C1: For every attacker and defender unit, executing an attack sets the
defender's hp to `max 0 (hp - attacker.atk)`; when the result is 0 the
defender's `is_alive` becomes `false` and a defeat message is appended to
the battle message.  This holds identically for the player-side `_attack`
and for the inline enemy-phase attack of `enemy_turn`. -/
theorem attack_resolution_spec (attacker defender e target : Unit) :
    (attack attacker defender).1.hp = max 0 (defender.hp - attacker.atk)
    ∧ ((attack attacker defender).1.hp = 0 →
        (attack attacker defender).1.is_alive = false
        ∧ ∃ s, (attack attacker defender).2
            = s ++ (" " ++ defender.name ++ " defeated!"))
    ∧ (enemy_hit e target).1.hp = max 0 (target.hp - e.atk)
    ∧ ((enemy_hit e target).1.hp = 0 →
        (enemy_hit e target).1.is_alive = false
        ∧ ∃ s, (enemy_hit e target).2
            = s ++ (" " ++ target.name ++ " defeated!")) := by
  refine ⟨?_, ?_, ?_, ?_⟩
  · by_cases hc : defender.hp - attacker.atk ≤ 0
    · simp only [attack, hc, if_true]
      exact (max_eq_left hc).symm
    · simp only [attack, hc, if_false]
      exact (max_eq_right (by omega)).symm
  · intro h0
    by_cases hc : defender.hp - attacker.atk ≤ 0
    · refine ⟨?_, ?_⟩
      · simp [attack, hc, Unit.is_alive]
      · refine ⟨(if 1 < attacker.attack_range then
            attacker.name ++ " attacks with " ++ weapon_for attacker.name
              ++ " for " ++ toString attacker.atk ++ "!"
          else
            attacker.name ++ " hits " ++ defender.name ++ " for "
              ++ toString attacker.atk ++ "!"), ?_⟩
        simp only [attack, hc, if_true, String.append_assoc]
    · exfalso
      simp only [attack, hc, if_false] at h0
      omega
  · by_cases hc : target.hp - e.atk ≤ 0
    · simp only [enemy_hit, hc, if_true]
      exact (max_eq_left hc).symm
    · simp only [enemy_hit, hc, if_false]
      exact (max_eq_right (by omega)).symm
  · intro h0
    by_cases hc : target.hp - e.atk ≤ 0
    · refine ⟨?_, ?_⟩
      · simp [enemy_hit, hc, Unit.is_alive]
      · refine ⟨(e.name ++ " hits " ++ target.name ++ " for "
            ++ toString e.atk ++ "!"), ?_⟩
        simp only [enemy_hit, hc, if_true, String.append_assoc]
    · exfalso
      simp only [enemy_hit, hc, if_false] at h0
      omega

/-- C1 witness: the spec scenario `atk = 5`, `hp = 3`. -/
theorem attack_resolution_spec_witness :
    (attack (Unit.create "A" 0 0 9 5 1) (Unit.create "D" 0 1 3 2 1)).1.hp = 0
    ∧ (attack (Unit.create "A" 0 0 9 5 1)
        (Unit.create "D" 0 1 3 2 1)).1.is_alive = false
    ∧ ∃ s, (attack (Unit.create "A" 0 0 9 5 1)
        (Unit.create "D" 0 1 3 2 1)).2 = s ++ (" " ++ "D" ++ " defeated!") := by
  have h := attack_resolution_spec (Unit.create "A" 0 0 9 5 1)
    (Unit.create "D" 0 1 3 2 1) (Unit.create "A" 0 0 9 5 1)
    (Unit.create "D" 0 1 3 2 1)
  have h0 : (attack (Unit.create "A" 0 0 9 5 1)
      (Unit.create "D" 0 1 3 2 1)).1.hp = 0 := by
    rw [h.1]; decide
  exact ⟨h0, (h.2.1 h0).1, (h.2.1 h0).2⟩

/-- C2: For every unit and enemy roster, the computed legal-target set is
exactly the set of positions of living opposing units whose Manhattan
distance to the unit lies in `[min_range, attack_range]`; dead units and
units outside the band never contribute. -/
theorem valid_attacks_spec (selected : Unit) (enemies : List Unit)
    (t : Int × Int) :
    t ∈ compute_valid_attacks selected enemies ↔
      ∃ e ∈ enemies, e.is_alive = true
        ∧ selected.min_range ≤ selected.distance_to e
        ∧ selected.distance_to e ≤ selected.attack_range
        ∧ t = (e.x, e.y) := by
  simp only [compute_valid_attacks, List.mem_map, List.mem_filter,
    Bool.and_eq_true, decide_eq_true_eq]
  constructor
  · rintro ⟨e, ⟨he, ⟨ha, h1⟩, h2⟩, rfl⟩
    exact ⟨e, he, ha, h1, h2, rfl⟩
  · rintro ⟨e, he, ha, h1, h2, rfl⟩
    exact ⟨e, ⟨he, ⟨ha, h1⟩, h2⟩, rfl⟩

/-! ### Reachability (BFS) lemmas -/

theorem occupied_eq_true_iff (units : List Unit) (x y : Int) :
    occupied_by_living units x y = true ↔
      ∃ u ∈ units, u.x = x ∧ u.y = y ∧ u.is_alive = true := by
  simp [occupied_by_living, List.any_eq_true, Bool.and_eq_true, beq_iff_eq,
    and_assoc]

theorem occupied_eq_false_iff (units : List Unit) (x y : Int) :
    occupied_by_living units x y = false ↔
      ∀ u ∈ units, u.is_alive = true → (u.x, u.y) ≠ (x, y) := by
  constructor
  · intro h u hu ha heq
    have ht : occupied_by_living units x y = true :=
      (occupied_eq_true_iff _ _ _).mpr
        ⟨u, hu, congrArg Prod.fst heq, congrArg Prod.snd heq, ha⟩
    simp [h] at ht
  · intro h
    by_contra hb
    have htrue : occupied_by_living units x y = true := by
      cases hb2 : occupied_by_living units x y
      · exact absurd hb2 hb
      · rfl
    obtain ⟨u, hu, hx, hy, ha⟩ := (occupied_eq_true_iff _ _ _).mp htrue
    exact h u hu ha (by rw [hx, hy])

theorem bfs_acc_mono (others enemies : List Unit) (maxdist : Nat)
    (t : Int × Int) :
    ∀ fuel q visited acc, t ∈ acc →
      t ∈ bfs others enemies maxdist fuel q visited acc := by
  intro fuel
  induction fuel with
  | zero => intro q visited acc h; simpa [bfs] using h
  | succ n ih =>
    intro q visited acc h
    match q with
    | [] => simpa [bfs] using h
    | c :: q' =>
      simp only [bfs]
      split
      · apply ih
        split
        · exact h
        · exact List.mem_append_left _ h
      · apply ih
        split
        · exact h
        · exact List.mem_append_left _ h

theorem bfs_free (others enemies : List Unit) (maxdist : Nat) :
    ∀ fuel q visited acc,
      (∀ t ∈ acc, occupied_by_living others t.1 t.2 = false) →
      ∀ t ∈ bfs others enemies maxdist fuel q visited acc,
        occupied_by_living others t.1 t.2 = false := by
  intro fuel
  induction fuel with
  | zero => intro q visited acc h; simpa [bfs] using h
  | succ n ih =>
    intro q visited acc h
    match q with
    | [] => simpa [bfs] using h
    | c :: q' =>
      simp only [bfs]
      have hacc' : ∀ t ∈ (if occupied_by_living others c.1 c.2 then acc
          else acc ++ [c]),
          occupied_by_living others t.1 t.2 = false := by
        split
        · exact h
        · intro t ht
          rcases List.mem_append.mp ht with h1 | h1
          · exact h t h1
          · rcases List.mem_singleton.mp h1 with rfl
            next hocc => simpa using hocc
      split
      · exact ih _ _ _ hacc'
      · exact ih _ _ _ hacc'

/-- C3: For every selected unit and board configuration in which no other
living unit stands on the selected unit's own tile (the occupancy
invariant guarantees this in every reachable battle state, see
`occupancy_invariant_reachable`), the computed reachable set contains the
unit's starting tile, and it never contains a tile occupied by another
living unit of either side (`others` ranges over both rosters minus the
selected unit, exactly as in `_compute_valid_moves`). -/
theorem valid_moves_start_and_free (selected : Unit)
    (others enemies : List Unit)
    (h : ∀ u ∈ others, u.is_alive = true →
      (u.x, u.y) ≠ (selected.x, selected.y)) :
    (selected.x, selected.y) ∈ compute_valid_moves selected others enemies
    ∧ ∀ t ∈ compute_valid_moves selected others enemies,
        ∀ u ∈ others, u.is_alive = true → (u.x, u.y) ≠ t := by
  have hocc : occupied_by_living others selected.x selected.y = false :=
    (occupied_eq_false_iff others selected.x selected.y).mpr h
  constructor
  · unfold compute_valid_moves
    simp only [bfs, List.lookup, beq_self_eq_true, Option.getD_some, hocc,
      Bool.false_eq_true, if_false, List.nil_append]
    split
    · exact List.mem_singleton.mpr rfl
    · exact bfs_acc_mono others enemies selected.movement _ _ _ _ _
        (List.mem_singleton.mpr rfl)
  · intro t ht
    have := bfs_free others enemies selected.movement 50
      [(selected.x, selected.y)] [((selected.x, selected.y), 0)] []
      (by intro t ht; simp at ht) t ht
    exact (occupied_eq_false_iff others t.1 t.2).mp this

/-- C3 witness: a concrete board (the C4 scenario). -/
theorem valid_moves_start_and_free_witness :
    (1, 3) ∈ compute_valid_moves (Unit.create "Hero" 1 3 20 5 4)
      [Unit.create "Enemy" 6 3 10 3 3] [Unit.create "Enemy" 6 3 10 3 3]
    ∧ ∀ t ∈ compute_valid_moves (Unit.create "Hero" 1 3 20 5 4)
        [Unit.create "Enemy" 6 3 10 3 3] [Unit.create "Enemy" 6 3 10 3 3],
        ∀ u ∈ [Unit.create "Enemy" 6 3 10 3 3], u.is_alive = true →
          (u.x, u.y) ≠ t :=
  valid_moves_start_and_free (Unit.create "Hero" 1 3 20 5 4)
    [Unit.create "Enemy" 6 3 10 3 3] [Unit.create "Enemy" 6 3 10 3 3]
    (by decide)

/-- C4 counterexample: in the 8×6 grid scenario — one friendly unit with
`movement = 4` at (1,3), one enemy at (6,3), no other units — the
computed reachable set does **not** have 13 tiles. -/
theorem reachable_scenario_not_13 :
    ¬ (compute_valid_moves (Unit.create "Hero" 1 3 20 5 4)
        [Unit.create "Enemy" 6 3 10 3 3]
        [Unit.create "Enemy" 6 3 10 3 3]).toFinset.card = 13 := by
  decide

/-- C4 (amended): in that scenario the reachable set has exactly 27 tiles
— the Manhattan ball of radius 4 around (1,3) clipped to the 8×6 grid
(6 + 5 + 5 + 4 + 4 + 3 tiles per row); the enemy at distance 5 does not
intersect it. -/
theorem reachable_scenario_card_27 :
    (compute_valid_moves (Unit.create "Hero" 1 3 20 5 4)
        [Unit.create "Enemy" 6 3 10 3 3]
        [Unit.create "Enemy" 6 3 10 3 3]).toFinset.card = 27 := by
  decide

/-! ### Enemy-AI target selection (stable minimum) -/

theorem py_min_le {α : Type} (f : α → Nat) :
    ∀ (l : List α) (a y : α), y ∈ a :: l → f (py_min f a l) ≤ f y := by
  intro l
  induction l with
  | nil =>
    intro a y hy
    rcases List.mem_singleton.mp hy with rfl
    simp [py_min]
  | cons x xs ih =>
    intro a y hy
    have hred : py_min f a (x :: xs) = py_min f (if f x < f a then x else a) xs :=
      rfl
    have hb : f (py_min f (if f x < f a then x else a) xs)
        ≤ f (if f x < f a then x else a) :=
      ih _ _ (List.mem_cons_self _ _)
    have hba : f (if f x < f a then x else a) ≤ f a := by split <;> omega
    have hbx : f (if f x < f a then x else a) ≤ f x := by split <;> omega
    rcases List.mem_cons.mp hy with rfl | hy'
    · rw [hred]; omega
    rcases List.mem_cons.mp hy' with rfl | hy''
    · rw [hred]; omega
    · rw [hred]; exact ih _ _ (List.mem_cons_of_mem _ hy'')

theorem py_min_split {α : Type} (f : α → Nat) :
    ∀ (l : List α) (a : α), ∃ l₁ l₂,
      a :: l = l₁ ++ py_min f a l :: l₂
      ∧ ∀ y ∈ l₁, f (py_min f a l) < f y := by
  intro l
  induction l with
  | nil => exact fun a => ⟨[], [], by simp [py_min], by simp⟩
  | cons x xs ih =>
    intro a
    have hred : py_min f a (x :: xs) = py_min f (if f x < f a then x else a) xs :=
      rfl
    by_cases hc : f x < f a
    · obtain ⟨l₁, l₂, heq, h₁⟩ := ih x
      have hm : f (py_min f x xs) ≤ f x :=
        py_min_le f xs x x (List.mem_cons_self _ _)
      refine ⟨a :: l₁, l₂, ?_, ?_⟩
      · rw [hred, if_pos hc]
        simpa using heq
      · intro y hy
        rw [hred, if_pos hc]
        rcases List.mem_cons.mp hy with rfl | hy'
        · omega
        · exact h₁ y hy'
    · obtain ⟨l₁, l₂, heq, h₁⟩ := ih a
      cases l₁ with
      | nil =>
        simp only [List.nil_append, List.cons.injEq] at heq
        obtain ⟨ha, hxs⟩ := heq
        refine ⟨[], x :: l₂, ?_, by simp⟩
        rw [hred, if_neg hc, List.nil_append, ← ha, ← hxs]
      | cons b l₁' =>
        simp only [List.cons_append, List.cons.injEq] at heq
        obtain ⟨ha, hxs⟩ := heq
        have hmb : f (py_min f a xs) < f b := h₁ b (List.mem_cons_self _ _)
        have hma : f (py_min f a xs) < f a := by
          nth_rewrite 2 [ha]
          exact hmb
        refine ⟨a :: x :: l₁', l₂, ?_, ?_⟩
        · rw [hred, if_neg hc]
          simp only [List.cons_append]
          rw [← hxs]
        · intro y hy
          rw [hred, if_neg hc]
          rcases List.mem_cons.mp hy with rfl | hy'
          · exact hma
          rcases List.mem_cons.mp hy' with rfl | hy''
          · omega
          · exact h₁ y (List.mem_cons_of_mem _ hy'')

theorem living_player_idxs_mem (ps : List Unit) (j : Nat) :
    j ∈ living_player_idxs ps ↔
      j < ps.length ∧ (ps.getD j default).is_alive = true := by
  simp [living_player_idxs, List.mem_filter, List.mem_range]

theorem living_player_idxs_sorted (ps : List Unit) :
    List.Pairwise (· < ·) (living_player_idxs ps) :=
  (List.pairwise_lt_range ps.length).filter _

/-- C6: During the enemy phase, each acting enemy selects as its target
the living friendly unit at minimum Manhattan distance, and among
equidistant living friendly units the one earliest in roster order wins
(Python's `min` keeps the current best on ties). -/
theorem enemy_target_selection_spec (e : Unit) (ps : List Unit) (i : Nat)
    (h : choose_target e ps = some i) :
    i < ps.length ∧ (ps.getD i default).is_alive = true
    ∧ (∀ j, j < ps.length → (ps.getD j default).is_alive = true →
        e.distance_to (ps.getD i default) ≤ e.distance_to (ps.getD j default))
    ∧ ∀ j, j < i → (ps.getD j default).is_alive = true →
        e.distance_to (ps.getD i default) < e.distance_to (ps.getD j default)
    := by
  unfold choose_target at h
  set f : Nat → Nat := fun k => e.distance_to (ps.getD k default) with hf
  cases hL : living_player_idxs ps with
  | nil => rw [hL] at h; exact absurd h (by simp)
  | cons a l =>
    rw [hL] at h
    have hi : i = py_min f a l := by
      have := Option.some.inj h
      omega
    obtain ⟨l₁, l₂, heq, h₁⟩ := py_min_split f l a
    rw [← hi] at heq h₁
    have hmem : i ∈ living_player_idxs ps := by
      rw [hL, heq]
      exact List.mem_append_right _ (List.mem_cons_self _ _)
    obtain ⟨hlen, halive⟩ := (living_player_idxs_mem ps i).mp hmem
    refine ⟨hlen, halive, ?_, ?_⟩
    · intro j hj hja
      have hjmem : j ∈ living_player_idxs ps :=
        (living_player_idxs_mem ps j).mpr ⟨hj, hja⟩
      rw [hL] at hjmem
      have := py_min_le f l a j hjmem
      rw [← hi] at this
      exact this
    · intro j hj hja
      have hjmem : j ∈ living_player_idxs ps :=
        (living_player_idxs_mem ps j).mpr ⟨Nat.lt_trans hj hlen, hja⟩
      rw [hL, heq] at hjmem
      rcases List.mem_append.mp hjmem with hj1 | hj2
      · exact h₁ j hj1
      · exfalso
        rcases List.mem_cons.mp hj2 with rfl | hj3
        · omega
        · have hsorted := living_player_idxs_sorted ps
          rw [hL, heq] at hsorted
          have := (List.pairwise_append.mp hsorted).2.1
          have hlt : i < j := (List.pairwise_cons.mp this).1 j hj3
          omega

/-- C6 witness: two living friendly units equidistant (distance 2) from
the enemy; the earlier one (index 0) is chosen. -/
theorem enemy_target_selection_spec_witness :
    choose_target (Unit.create "G" 0 0 8 3 3)
      [Unit.create "A" 2 0 5 2 3, Unit.create "B" 0 2 5 2 3] = some 0
    ∧ 0 < ([Unit.create "A" 2 0 5 2 3, Unit.create "B" 0 2 5 2 3].length)
    ∧ ([Unit.create "A" 2 0 5 2 3,
        Unit.create "B" 0 2 5 2 3].getD 0 default).is_alive = true
    ∧ (Unit.create "G" 0 0 8 3 3).distance_to
        ([Unit.create "A" 2 0 5 2 3, Unit.create "B" 0 2 5 2 3].getD 0 default)
      ≤ (Unit.create "G" 0 0 8 3 3).distance_to
        ([Unit.create "A" 2 0 5 2 3, Unit.create "B" 0 2 5 2 3].getD 1 default)
    := by
  have h : choose_target (Unit.create "G" 0 0 8 3 3)
      [Unit.create "A" 2 0 5 2 3, Unit.create "B" 0 2 5 2 3] = some 0 := by
    decide
  have hs := enemy_target_selection_spec (Unit.create "G" 0 0 8 3 3)
    [Unit.create "A" 2 0 5 2 3, Unit.create "B" 0 2 5 2 3] 0 h
  exact ⟨h, hs.1, hs.2.1, hs.2.2.1 1 (by decide) (by decide)⟩

/-! ### Enemy-AI movement fallback -/

theorem find?_split {α : Type} (p : α → Bool) :
    ∀ (l : List α) (b : α), l.find? p = some b →
      ∃ l₁ l₂, l = l₁ ++ b :: l₂ ∧ p b = true ∧ ∀ a ∈ l₁, p a = false := by
  intro l
  induction l with
  | nil => intro b h; exact absurd h (by simp)
  | cons x xs ih =>
    intro b h
    by_cases hx : p x = true
    · rw [List.find?_cons_of_pos _ hx] at h
      rcases Option.some.inj h with rfl
      exact ⟨[], xs, rfl, hx, by simp⟩
    · rw [List.find?_cons_of_neg _ (by simpa using hx)] at h
      obtain ⟨l₁, l₂, heq, hb, hall⟩ := ih b h
      refine ⟨x :: l₁, l₂, by simp [heq], hb, ?_⟩
      intro a ha
      rcases List.mem_cons.mp ha with rfl | ha'
      · simpa using hx
      · exact hall a ha'

/-- C7: When an acting enemy is not adjacent to its target and none of its
preferred candidate tiles (diagonal-toward-target first) is free, it tries
the four cardinal neighbours in the fixed order right, left, down, up and
moves to the first one that is in-bounds and unoccupied by any living
unit; if none is free it stays put (`apply_dest` leaves it in place). -/
theorem enemy_fallback_move_spec (e target : Unit) (units : List Unit)
    (hpref : ∀ c ∈ preferred_candidates e target, tile_free units c = false) :
    (∀ n, enemy_move_dest e target units = some n →
      ∃ l₁ l₂, fallback_candidates e = l₁ ++ n :: l₂
        ∧ tile_free units n = true
        ∧ ∀ m ∈ l₁, tile_free units m = false)
    ∧ (enemy_move_dest e target units = none →
        (∀ n ∈ fallback_candidates e, tile_free units n = false)
        ∧ apply_dest e (enemy_move_dest e target units) = e) := by
  have hnone : (preferred_candidates e target).find? (tile_free units)
      = none := by
    rw [List.find?_eq_none]
    intro c hc
    simp [hpref c hc]
  constructor
  · intro n hn
    simp only [enemy_move_dest, hnone] at hn
    exact find?_split (tile_free units) (fallback_candidates e) n hn
  · intro hn
    have hn0 := hn
    simp only [enemy_move_dest, hnone] at hn0
    refine ⟨?_, ?_⟩
    · intro m hm
      simpa using List.find?_eq_none.mp hn0 m hm
    · rw [hn]
      rfl

/-- C7 witness: the spec scenario — target at Manhattan distance 3, the
tile directly ahead blocked by another living unit (and the mover's own
tile occupied by itself), so every preferred candidate is blocked; the
enemy moves to the alternate free cardinal neighbour (5, 3) (first in the
right-left-down-up order) rather than staying put. -/
theorem enemy_fallback_move_spec_witness :
    (∀ c ∈ preferred_candidates (Unit.create "G" 4 3 8 3 3)
        (Unit.create "H" 1 3 10 3 4),
      tile_free [Unit.create "H" 1 3 10 3 4, Unit.create "B" 3 3 9 2 3,
        Unit.create "G" 4 3 8 3 3] c = false)
    ∧ (Unit.create "G" 4 3 8 3 3).distance_to (Unit.create "H" 1 3 10 3 4) = 3
    ∧ enemy_move_dest (Unit.create "G" 4 3 8 3 3) (Unit.create "H" 1 3 10 3 4)
        [Unit.create "H" 1 3 10 3 4, Unit.create "B" 3 3 9 2 3,
          Unit.create "G" 4 3 8 3 3] = some (5, 3)
    ∧ ∃ l₁ l₂, fallback_candidates (Unit.create "G" 4 3 8 3 3)
        = l₁ ++ (5, 3) :: l₂
        ∧ tile_free [Unit.create "H" 1 3 10 3 4, Unit.create "B" 3 3 9 2 3,
            Unit.create "G" 4 3 8 3 3] ((5 : Int), (3 : Int)) = true
        ∧ ∀ m ∈ l₁, tile_free [Unit.create "H" 1 3 10 3 4,
            Unit.create "B" 3 3 9 2 3, Unit.create "G" 4 3 8 3 3] m = false
    := by
  have hpref : ∀ c ∈ preferred_candidates (Unit.create "G" 4 3 8 3 3)
      (Unit.create "H" 1 3 10 3 4),
      tile_free [Unit.create "H" 1 3 10 3 4, Unit.create "B" 3 3 9 2 3,
        Unit.create "G" 4 3 8 3 3] c = false := by decide
  have hdest : enemy_move_dest (Unit.create "G" 4 3 8 3 3)
      (Unit.create "H" 1 3 10 3 4)
      [Unit.create "H" 1 3 10 3 4, Unit.create "B" 3 3 9 2 3,
        Unit.create "G" 4 3 8 3 3] = some (5, 3) := by decide
  have hs := enemy_fallback_move_spec (Unit.create "G" 4 3 8 3 3)
    (Unit.create "H" 1 3 10 3 4)
    [Unit.create "H" 1 3 10 3 4, Unit.create "B" 3 3 9 2 3,
      Unit.create "G" 4 3 8 3 3] hpref
  exact ⟨hpref, by decide, hdest, hs.1 (5, 3) hdest⟩

/-! ### Session termination handshake with the overworld -/

theorem kill_first_alive_of_none (es : List Unit)
    (h : ∀ e ∈ es, e.is_alive = false) : kill_first_alive es = es := by
  induction es with
  | nil => rfl
  | cons a es' ih =>
    rw [kill_first_alive]
    rw [h a (List.mem_cons_self _ _)]
    simp only [Bool.false_eq_true, if_false, List.cons.injEq, true_and]
    exact ih fun e he => h e (List.mem_cons_of_mem _ he)

theorem kill_first_alive_split (es : List Unit) (e : Unit) (he : e ∈ es)
    (ha : e.is_alive = true) :
    ∃ l₁ v l₂, es = l₁ ++ v :: l₂ ∧ (∀ w ∈ l₁, w.is_alive = false)
      ∧ v.is_alive = true
      ∧ kill_first_alive es = l₁ ++ { v with hp := 0 } :: l₂ := by
  induction es with
  | nil => exact absurd he (by simp)
  | cons a es' ih =>
    by_cases haa : a.is_alive = true
    · refine ⟨[], a, es', rfl, by simp, haa, ?_⟩
      rw [kill_first_alive, haa]
      simp
    · have he' : e ∈ es' := by
        rcases List.mem_cons.mp he with rfl | h'
        · exact absurd ha haa
        · exact h'
      obtain ⟨l₁, v, l₂, heq, hdead, hv, hk⟩ := ih he'
      refine ⟨a :: l₁, v, l₂, by rw [heq, List.cons_append], ?_, hv, ?_⟩
      · intro w hw
        rcases List.mem_cons.mp hw with rfl | hw'
        · exact Bool.not_eq_true _ |>.mp haa
        · exact hdead w hw'
      · rw [kill_first_alive]
        rw [Bool.not_eq_true _ |>.mp haa]
        simp only [Bool.false_eq_true, if_false, List.cons_append,
          List.cons.injEq, true_and]
        exact hk

/-- C9: When the session terminates and the player confirms the outcome,
the session reports a boolean outcome (`state = victory`) and the lead
friendly unit's final hp; the reported hp is always written back onto the
persistent overworld hero; on victory the first living overworld enemy is
permanently removed by forcing its hp to 0 (so it is no longer alive),
and on defeat the overworld enemies are untouched. -/
theorem end_battle_spec (b : Battle) (ow : Overworld)
    (_hterm : b.state = BState.victory ∨ b.state = BState.defeat) :
    (confirm_outcome b ow).player.hp = (b.player_units.getD 0 default).hp
    ∧ (b.state = BState.defeat →
        (confirm_outcome b ow).enemies = ow.enemies)
    ∧ (b.state = BState.victory →
        ((∀ e ∈ ow.enemies, e.is_alive = false) →
          (confirm_outcome b ow).enemies = ow.enemies)
        ∧ ∀ u ∈ ow.enemies, u.is_alive = true →
            ∃ l₁ v l₂, ow.enemies = l₁ ++ v :: l₂
              ∧ (∀ w ∈ l₁, w.is_alive = false)
              ∧ v.is_alive = true
              ∧ ({ v with hp := 0 } : Unit).is_alive = false
              ∧ (confirm_outcome b ow).enemies
                  = l₁ ++ { v with hp := 0 } :: l₂) := by
  refine ⟨by simp [confirm_outcome, end_battle], ?_, ?_⟩
  · intro hd
    simp [confirm_outcome, end_battle, hd]
  · intro hv
    constructor
    · intro hnone
      simp [confirm_outcome, end_battle, hv,
        kill_first_alive_of_none ow.enemies hnone]
    · intro u hu hua
      obtain ⟨l₁, v, l₂, heq, hdead, hva, hk⟩ :=
        kill_first_alive_split ow.enemies u hu hua
      refine ⟨l₁, v, l₂, heq, hdead, hva, by simp [Unit.is_alive], ?_⟩
      simp [confirm_outcome, end_battle, hv, hk]

/-- C9 witness: a concrete victorious session against a one-enemy
overworld. -/
theorem end_battle_spec_witness :
    (confirm_outcome
        { start_battle (Unit.create "H" 0 0 20 5 4)
            (Unit.create "D" 3 3 12 4 3) with state := BState.victory }
        ⟨Unit.create "H" 0 0 20 5 4, [Unit.create "D" 3 3 12 4 3]⟩).player.hp
      = (({ start_battle (Unit.create "H" 0 0 20 5 4)
            (Unit.create "D" 3 3 12 4 3) with state := BState.victory }
          : Battle).player_units.getD 0 default).hp :=
  (end_battle_spec
    { start_battle (Unit.create "H" 0 0 20 5 4)
        (Unit.create "D" 3 3 12 4 3) with state := BState.victory }
    ⟨Unit.create "H" 0 0 20 5 4, [Unit.create "D" 3 3 12 4 3]⟩
    (Or.inl rfl)).1

/-- C10: every battle-local `Unit` is constructed with `max_hp` equal to
its initial hp; the hero's battle copy has `max_hp` equal to the
overworld hero's current hp at session start (a hero entering wounded
keeps the reduced `max_hp` for the whole battle); hence `hp = max_hp`
holds for every unit at session construction. -/
theorem unit_max_hp_init_spec (name : String) (x y hp atk : Int)
    (movement : Nat) (player_unit enemy_unit : Unit) :
    (Unit.create name x y hp atk movement).max_hp = hp
    ∧ (Unit.create name x y hp atk movement).hp
        = (Unit.create name x y hp atk movement).max_hp
    ∧ (∀ u ∈ all_units (start_battle player_unit enemy_unit),
        u.hp = u.max_hp)
    ∧ ((start_battle player_unit enemy_unit).player_units.getD 0
        default).max_hp = player_unit.hp := by
  refine ⟨rfl, rfl, ?_, rfl⟩
  intro u hu
  simp only [all_units, start_battle, init_battle, List.mem_append,
    List.mem_cons, List.not_mem_nil, or_false] at hu
  rcases hu with (rfl | rfl | rfl | rfl) | (rfl | rfl | rfl) <;> rfl

/-- C10 witness: a wounded hero (overworld hp 7) yields a battle copy
with `max_hp = 7 = hp`, and every roster unit starts at full health. -/
theorem unit_max_hp_init_spec_witness :
    ((start_battle (Unit.create "Hero" 2 2 7 5 4)
        (Unit.create "Dragon" 5 5 30 6 3)).player_units.getD 0
      default).max_hp = (Unit.create "Hero" 2 2 7 5 4).hp
    ∧ ((start_battle (Unit.create "Hero" 2 2 7 5 4)
        (Unit.create "Dragon" 5 5 30 6 3)).player_units.getD 0 default).hp
      = ((start_battle (Unit.create "Hero" 2 2 7 5 4)
        (Unit.create "Dragon" 5 5 30 6 3)).player_units.getD 0
          default).max_hp := by
  have h := unit_max_hp_init_spec "Hero" 2 2 7 5 4
    (Unit.create "Hero" 2 2 7 5 4) (Unit.create "Dragon" 5 5 30 6 3)
  exact ⟨h.2.2.2, h.2.2.1 _ (by decide)⟩

/-! ### Turn/phase state-machine lemmas (towards C5) -/

theorem all_dead_iff (l : List Unit) :
    l.any Unit.is_alive = false ↔ ∀ u ∈ l, u.is_alive = false := by
  constructor
  · intro h u hu
    cases ha : u.is_alive
    · rfl
    · exact absurd (List.any_eq_true.mpr ⟨u, hu, ha⟩) (by simp [h])
  · intro h
    cases hb : l.any Unit.is_alive
    · rfl
    · obtain ⟨u, hu, ha⟩ := List.any_eq_true.mp hb
      rw [h u hu] at ha
      exact absurd ha (by simp)

theorem getD_eq_getElem (ps : List Unit) (j : Nat) (hj : j < ps.length) :
    ps.getD j default = ps[j] := by
  rw [List.getD_eq_getElem?_getD, List.getElem?_eq_getElem hj,
    Option.getD_some]

theorem no_living_iff (ps : List Unit) :
    living_player_idxs ps = [] ↔ ∀ p ∈ ps, p.is_alive = false := by
  rw [living_player_idxs, List.filter_eq_nil_iff]
  constructor
  · intro h p hp
    obtain ⟨j, hj, hget⟩ := List.mem_iff_getElem.mp hp
    have hh := h j (List.mem_range.mpr hj)
    rw [getD_eq_getElem ps j hj, hget] at hh
    exact Bool.eq_false_iff.mpr hh
  · intro h j hj
    have hjl := List.mem_range.mp hj
    rw [getD_eq_getElem ps j hjl, h ps[j] (List.getElem_mem hjl)]
    simp

theorem choose_target_eq_none (e : Unit) (ps : List Unit) :
    choose_target e ps = none ↔ living_player_idxs ps = [] := by
  rw [choose_target]
  cases living_player_idxs ps <;> simp

theorem reset_acted_any_alive (ps : List Unit) :
    (reset_acted ps).any Unit.is_alive = ps.any Unit.is_alive := by
  rw [reset_acted, List.any_map]
  rfl

theorem after_player_action_facts (b : Battle) :
    (after_player_action b).enemy_units = b.enemy_units
    ∧ (after_player_action b).player_units = b.player_units
    ∧ ((after_player_action b).state = BState.victory ↔
        b.enemy_units.any Unit.is_alive = false)
    ∧ (after_player_action b).state ≠ BState.defeat := by
  rw [after_player_action]
  by_cases h : b.enemy_units.any Unit.is_alive
  · have h' : (!b.enemy_units.any Unit.is_alive) = false := by simp [h]
    rw [h']
    simp only [Bool.false_eq_true, if_false]
    split <;> simp [h]
  · have h0 : b.enemy_units.any Unit.is_alive = false := by
      revert h; cases b.enemy_units.any Unit.is_alive <;> simp
    rw [h0]
    simp

theorem enemy_act_move_state (b : Battle) (i : Nat) (e target : Unit) :
    (enemy_act_move b i e target).state = b.state := by
  rw [enemy_act_move]
  split <;> rfl

theorem enemy_act_cases (b : Battle) (i : Nat) :
    ((enemy_act b i).2 = true ∧ (enemy_act b i).1.state = BState.defeat
      ∧ (enemy_act b i).1.player_units = b.player_units
      ∧ living_player_idxs b.player_units = [])
    ∨ ((enemy_act b i).2 = false ∧ (enemy_act b i).1.state = b.state) := by
  simp only [enemy_act]
  cases ha : (b.enemy_units.getD i default).is_alive with
  | false => exact Or.inr ⟨rfl, rfl⟩
  | true =>
    cases hct : choose_target (b.enemy_units.getD i default) b.player_units
      with
    | none =>
      exact Or.inl ⟨rfl, rfl, rfl, (choose_target_eq_none _ _).mp hct⟩
    | some t =>
      by_cases hd : (b.enemy_units.getD i default).distance_to
          (b.player_units.getD t default) = 1
      all_goals simp only [List.getD_eq_getElem?_getD] at hd
      · refine Or.inr ⟨?_, ?_⟩ <;> simp [hd]
      · refine Or.inr ⟨?_, ?_⟩ <;> simp [hd, enemy_act_move_state]

theorem enemy_loop_spec (l : List Nat) : ∀ b : Battle,
    ((enemy_loop b l).2 = true →
      (enemy_loop b l).1.state = BState.defeat
      ∧ ∀ p ∈ (enemy_loop b l).1.player_units, p.is_alive = false)
    ∧ ((enemy_loop b l).2 = false → (enemy_loop b l).1.state = b.state) := by
  induction l with
  | nil =>
    intro b
    simp [enemy_loop]
  | cons i rest ih =>
    intro b
    rw [enemy_loop]
    rcases enemy_act_cases b i with ⟨h2, hst, hpl, hlv⟩ | ⟨h2, hst⟩
    · simp only [h2, if_true]
      refine ⟨fun _ => ⟨hst, ?_⟩, fun hf => absurd hf (by simp)⟩
      rw [hpl]
      exact (no_living_iff b.player_units).mp hlv
    · simp only [h2, Bool.false_eq_true, if_false]
      refine ⟨(ih _).1, fun hf => ?_⟩
      rw [(ih _).2 hf, hst]

theorem enemy_turn_cursor_fields (b2 : Battle) :
    (enemy_turn_cursor b2).player_units = b2.player_units
    ∧ (enemy_turn_cursor b2).state = b2.state := by
  rw [enemy_turn_cursor]
  split <;> exact ⟨rfl, rfl⟩

theorem enemy_turn_finish_facts (b1 : Battle) :
    ((enemy_turn_finish b1).state = BState.defeat
      ∨ (enemy_turn_finish b1).state = BState.player_select)
    ∧ ((enemy_turn_finish b1).state = BState.defeat ↔
        ∀ p ∈ (enemy_turn_finish b1).player_units, p.is_alive = false) := by
  rw [enemy_turn_finish]
  by_cases hany : b1.player_units.any Unit.is_alive = true
  · rw [if_neg (by rw [hany]; simp)]
    refine ⟨Or.inr rfl, fun h => absurd h (by simp), fun hdead => ?_⟩
    exfalso
    have hpu : ({ enemy_turn_cursor
        { b1 with player_units := reset_acted b1.player_units } with
        state := BState.player_select,
        message := "Your turn - Select a unit" } : Battle).player_units
        = reset_acted b1.player_units := by
      show (enemy_turn_cursor _).player_units = _
      rw [(enemy_turn_cursor_fields _).1]
    rw [hpu] at hdead
    have h0 := (all_dead_iff _).mpr hdead
    rw [reset_acted_any_alive] at h0
    rw [h0] at hany
    exact absurd hany (by simp)
  · have hany0 : b1.player_units.any Unit.is_alive = false :=
      Bool.eq_false_iff.mpr hany
    rw [if_pos (by rw [hany0]; simp)]
    exact ⟨Or.inl rfl, fun _ => (all_dead_iff _).mp hany0, fun _ => rfl⟩

theorem enemy_turn_facts (b : Battle) :
    ((enemy_turn b).state = BState.defeat
      ∨ (enemy_turn b).state = BState.player_select)
    ∧ ((enemy_turn b).state = BState.defeat ↔
        ∀ p ∈ (enemy_turn b).player_units, p.is_alive = false) := by
  have hspec := enemy_loop_spec (List.range b.enemy_units.length) b
  rw [enemy_turn]
  by_cases h2 : (enemy_loop b (List.range b.enemy_units.length)).2 = true
  · rw [if_pos h2]
    obtain ⟨hst, hdead⟩ := hspec.1 h2
    exact ⟨Or.inl hst, fun _ => hdead, fun _ => hst⟩
  · rw [if_neg h2]
    exact enemy_turn_finish_facts _

theorem move_cursor_state (b : Battle) (k : Key) :
    (move_cursor b k).state = b.state := by
  cases k <;> rfl

theorem handle_escape_facts (b : Battle) :
    (handle_escape b).state ≠ BState.victory
    ∧ ((handle_escape b).state = BState.defeat ↔ ¬ cancel_cond b) := by
  rw [handle_escape]
  cases hst : b.state <;>
    cases hsel : b.selected_unit <;>
      cases horig : b.original_pos <;>
        simp [cancel_cond, cancel_selection, hst, hsel, horig]

theorem select_enter_state (b : Battle) :
    (select_enter b).state = BState.player_move
    ∨ (select_enter b).state = b.state := by
  rw [select_enter]
  split
  · exact Or.inl rfl
  · exact Or.inr rfl

theorem move_enter_state (b : Battle) :
    (move_enter b).state = BState.player_attack
    ∨ (move_enter b).state = b.state := by
  rw [move_enter]
  split
  · exact Or.inr rfl
  · split
    · exact Or.inl rfl
    · exact Or.inr rfl

theorem space_skip_facts (b : Battle) (hb : b.state = BState.player_attack) :
    ((space_skip b).state = BState.victory ↔
      b.selected_unit.isSome = true
      ∧ ∀ e ∈ (space_skip b).enemy_units, e.is_alive = false)
    ∧ (space_skip b).state ≠ BState.defeat := by
  rw [space_skip]
  cases hsel : b.selected_unit with
  | none =>
    constructor
    · simp [hb, hsel]
    · simp [hb]
  | some i =>
    refine ⟨?_, (after_player_action_facts _).2.2.2⟩
    rw [(after_player_action_facts _).2.2.1, all_dead_iff,
      (after_player_action_facts _).1]
    simp

theorem attack_enter_facts (b : Battle)
    (hb : b.state = BState.player_attack) :
    ((attack_enter b).state = BState.victory ↔
      b.selected_unit.isSome = true ∧ attack_landed b
      ∧ ∀ e ∈ (attack_enter b).enemy_units, e.is_alive = false)
    ∧ (attack_enter b).state ≠ BState.defeat := by
  rw [attack_enter]
  split
  · next j hfi =>
    split
    · next hmem =>
      split
      · next hsel =>
        constructor
        · simp [hb, hsel]
        · simp [hb]
      · next i hsel =>
        refine ⟨?_, (after_player_action_facts _).2.2.2⟩
        rw [(after_player_action_facts _).2.2.1, all_dead_iff,
          (after_player_action_facts _).1]
        simp [attack_landed, hfi, hmem, hsel]
    · next hmem =>
      constructor
      · simp [hb, attack_landed, hmem]
      · simp [hb]
  · next hfi =>
    constructor
    · simp [hb, attack_landed, hfi]
    · simp [hb]

theorem neutral_case (b : Battle) (ev : Ev) (b' : Battle)
    (hbv : b'.state ≠ BState.victory) (hbd : b'.state ≠ BState.defeat)
    (hpac : ¬ player_action_completed b ev)
    (hesc : ¬(ev = Ev.key Key.escape ∧ ¬ cancel_cond b))
    (htimer : ev ≠ Ev.timer) :
    (b'.state = BState.victory ↔
      player_action_completed b ev
      ∧ ∀ e ∈ b'.enemy_units, e.is_alive = false)
    ∧ (b'.state = BState.defeat ↔
      ((ev = Ev.key Key.escape ∧ ¬ cancel_cond b)
        ∨ (ev = Ev.timer ∧ ∀ p ∈ b'.player_units, p.is_alive = false))) := by
  constructor
  · constructor
    · intro h
      exact absurd h hbv
    · rintro ⟨h, _⟩
      exact absurd h hpac
  · constructor
    · intro h
      exact absurd h hbd
    · rintro (h | ⟨h, _⟩)
      · exact absurd h hesc
      · exact absurd h htimer

/-- C5: a non-terminal battle state enters `VICTORY` on a stimulus iff
that stimulus completes a player action (attack or skip) after which all
enemy units are simultaneously dead, and enters `DEFEAT` iff either ESC
is pressed outside a cancellable move/attack (the forfeit action) or the
enemy phase runs and afterwards all friendly units are simultaneously
dead; no other transition reaches a terminal state. -/
theorem terminal_transition_spec (b : Battle) (ev : Ev)
    (hV : b.state ≠ BState.victory) (hD : b.state ≠ BState.defeat) :
    ((step b ev).state = BState.victory ↔
      player_action_completed b ev
      ∧ ∀ e ∈ (step b ev).enemy_units, e.is_alive = false)
    ∧ ((step b ev).state = BState.defeat ↔
      ((ev = Ev.key Key.escape ∧ ¬ cancel_cond b)
        ∨ (ev = Ev.timer
            ∧ ∀ p ∈ (step b ev).player_units, p.is_alive = false))) := by
  cases ev with
  | timer =>
    obtain ⟨hor, hiff⟩ := enemy_turn_facts b
    simp only [step]
    constructor
    · constructor
      · intro hvic
        rcases hor with h | h <;> rw [hvic] at h <;> exact absurd h (by simp)
      · rintro ⟨⟨_, _, h | h⟩, _⟩
        · exact absurd h (by simp)
        · exact absurd h.1 (by simp)
    · constructor
      · intro hdef
        exact Or.inr ⟨by trivial, hiff.mp hdef⟩
      · rintro (⟨hesc, _⟩ | ⟨_, hdead⟩)
        · exact absurd hesc (by simp)
        · exact hiff.mpr hdead
  | key k =>
    have hguard : ¬(b.state = BState.victory ∨ b.state = BState.defeat) := by
      rintro (h | h)
      · exact hV h
      · exact hD h
    simp only [step, handle_key]
    rw [if_neg hguard]
    cases k with
    | escape =>
      dsimp only
      obtain ⟨hnv, hiff⟩ := handle_escape_facts b
      constructor
      · constructor
        · intro h
          exact absurd h hnv
        · rintro ⟨⟨_, _, h | h⟩, _⟩
          · exact absurd h (by simp)
          · exact absurd h.1 (by simp)
      · constructor
        · intro h
          exact Or.inl ⟨by trivial, hiff.mp h⟩
        · rintro (⟨_, hnc⟩ | ⟨ht, _⟩)
          · exact hiff.mpr hnc
          · exact absurd ht (by simp)
    | enter =>
      dsimp only
      by_cases h1 : b.state = BState.player_select
      · rw [if_pos h1]
        rcases select_enter_state b with h | h <;>
          exact neutral_case b _ _ (by rw [h]; first | exact hV | simp)
            (by rw [h]; first | exact hD | simp)
            (by simp [player_action_completed, h1]) (by simp) (by simp)
      · rw [if_neg h1]
        by_cases h2 : b.state = BState.player_move
        · rw [if_pos h2]
          rcases move_enter_state b with h | h <;>
            exact neutral_case b _ _ (by rw [h]; first | exact hV | simp)
              (by rw [h]; first | exact hD | simp)
              (by simp [player_action_completed, h2]) (by simp) (by simp)
        · rw [if_neg h2]
          by_cases h3 : b.state = BState.player_attack
          · rw [if_pos h3]
            obtain ⟨hvic, hnd⟩ := attack_enter_facts b h3
            constructor
            · rw [hvic]
              constructor
              · rintro ⟨hsome, hland, hdead⟩
                exact ⟨⟨h3, hsome, Or.inr ⟨by trivial, hland⟩⟩, hdead⟩
              · rintro ⟨⟨_, hsome, hcase⟩, hdead⟩
                rcases hcase with h | ⟨_, hland⟩
                · exact absurd h (by simp)
                · exact ⟨hsome, hland, hdead⟩
            · constructor
              · intro h
                exact absurd h hnd
              · rintro (⟨h, _⟩ | ⟨h, _⟩) <;> exact absurd h (by simp)
          · rw [if_neg h3]
            exact neutral_case b _ b hV hD
              (by simp [player_action_completed, h3]) (by simp) (by simp)
    | space =>
      dsimp only
      by_cases h3 : b.state = BState.player_attack
      · rw [if_pos h3]
        obtain ⟨hvic, hnd⟩ := space_skip_facts b h3
        constructor
        · rw [hvic]
          constructor
          · rintro ⟨hsome, hdead⟩
            exact ⟨⟨h3, hsome, Or.inl (by trivial)⟩, hdead⟩
          · rintro ⟨⟨_, hsome, _⟩, hdead⟩
            exact ⟨hsome, hdead⟩
        · constructor
          · intro h
            exact absurd h hnd
          · rintro (⟨h, _⟩ | ⟨h, _⟩) <;> exact absurd h (by simp)
      · rw [if_neg h3]
        exact neutral_case b _ b hV hD
          (by simp [player_action_completed, h3]) (by simp) (by simp)
    | left =>
      dsimp only
      split
      · exact neutral_case b _ _ (by rw [move_cursor_state]; exact hV)
          (by rw [move_cursor_state]; exact hD)
          (by simp [player_action_completed]) (by simp) (by simp)
      · exact neutral_case b _ b hV hD
          (by simp [player_action_completed]) (by simp) (by simp)
    | right =>
      dsimp only
      split
      · exact neutral_case b _ _ (by rw [move_cursor_state]; exact hV)
          (by rw [move_cursor_state]; exact hD)
          (by simp [player_action_completed]) (by simp) (by simp)
      · exact neutral_case b _ b hV hD
          (by simp [player_action_completed]) (by simp) (by simp)
    | up =>
      dsimp only
      split
      · exact neutral_case b _ _ (by rw [move_cursor_state]; exact hV)
          (by rw [move_cursor_state]; exact hD)
          (by simp [player_action_completed]) (by simp) (by simp)
      · exact neutral_case b _ b hV hD
          (by simp [player_action_completed]) (by simp) (by simp)
    | down =>
      dsimp only
      split
      · exact neutral_case b _ _ (by rw [move_cursor_state]; exact hV)
          (by rw [move_cursor_state]; exact hD)
          (by simp [player_action_completed]) (by simp) (by simp)
      · exact neutral_case b _ b hV hD
          (by simp [player_action_completed]) (by simp) (by simp)

/-- C5 witness: forfeiting (ESC) from the freshly constructed session —
the defeat characterisation applies and yields `DEFEAT`. -/
theorem terminal_transition_spec_witness :
    (step (start_battle (Unit.create "H" 0 0 20 5 4)
        (Unit.create "D" 5 5 12 4 3)) (Ev.key Key.escape)).state
      = BState.defeat := by
  have h := terminal_transition_spec
    (start_battle (Unit.create "H" 0 0 20 5 4) (Unit.create "D" 5 5 12 4 3))
    (Ev.key Key.escape) (by decide) (by decide)
  exact h.2.mpr (Or.inl ⟨rfl, by
    simp [cancel_cond, start_battle, init_battle]⟩)

/-! ### List plumbing for the occupancy invariant -/

theorem getD_set_eq (l : List Unit) (i : Nat) (u : Unit)
    (hi : i < l.length) : (l.set i u).getD i default = u := by
  induction l generalizing i with
  | nil => simp at hi
  | cons a l' ih =>
    cases i with
    | zero => rfl
    | succ i' => exact ih i' (by simpa using hi)

theorem getD_set_ne (l : List Unit) (i j : Nat) (u : Unit) (h : i ≠ j) :
    (l.set i u).getD j default = l.getD j default := by
  induction l generalizing i j with
  | nil => simp
  | cons a l' ih =>
    cases i with
    | zero =>
      cases j with
      | zero => exact absurd rfl h
      | succ j' => rfl
    | succ i' =>
      cases j with
      | zero => rfl
      | succ j' => exact ih i' j' (fun he => h (by rw [he]))

theorem getD_append_left (ps es : List Unit) (j : Nat)
    (h : j < ps.length) : (ps ++ es).getD j default = ps.getD j default := by
  induction ps generalizing j with
  | nil => simp at h
  | cons a ps' ih =>
    cases j with
    | zero => rfl
    | succ j' => exact ih j' (by simpa using h)

theorem getD_append_right (ps es : List Unit) (j : Nat)
    (h : ps.length ≤ j) :
    (ps ++ es).getD j default = es.getD (j - ps.length) default := by
  induction ps generalizing j with
  | nil => simp
  | cons a ps' ih =>
    cases j with
    | zero => simp at h
    | succ j' =>
      have := ih j' (by simpa using h)
      simpa using this

theorem set_append_left (ps es : List Unit) (i : Nat) (u : Unit)
    (hi : i < ps.length) : ps.set i u ++ es = (ps ++ es).set i u := by
  induction ps generalizing i with
  | nil => simp at hi
  | cons a ps' ih =>
    cases i with
    | zero => rfl
    | succ i' => simpa using ih i' (by simpa using hi)

theorem set_append_right (ps es : List Unit) (i : Nat) (u : Unit) :
    ps ++ es.set i u = (ps ++ es).set (ps.length + i) u := by
  induction ps with
  | nil => simp
  | cons a ps' ih =>
    simp only [List.cons_append, List.length_cons, Nat.succ_add, List.set]
    rw [ih]

theorem getD_mem (l : List Unit) (j : Nat) (hj : j < l.length) :
    l.getD j default ∈ l := by
  rw [getD_eq_getElem l j hj]
  exact List.getElem_mem hj

theorem getD_mem_eraseIdx (ps : List Unit) (i j : Nat)
    (hj : j < ps.length) (hne : j ≠ i) :
    ps.getD j default ∈ ps.eraseIdx i := by
  induction ps generalizing i j with
  | nil => simp at hj
  | cons a ps' ih =>
    cases i with
    | zero =>
      cases j with
      | zero => exact absurd rfl hne
      | succ j' =>
        simpa using getD_mem ps' j' (by simpa using hj)
    | succ i' =>
      cases j with
      | zero => exact List.mem_cons_self _ _
      | succ j' =>
        exact List.mem_cons_of_mem _
          (ih i' j' (by simpa using hj) (fun he => hne (by rw [he])))

/-! ### Preservation lemmas for the occupancy invariant -/

theorem noOverlap_set_same_pos (l : List Unit) (i : Nat) (u' : Unit)
    (hno : NoOverlap l)
    (hx : u'.x = (l.getD i default).x) (hy : u'.y = (l.getD i default).y)
    (hal : u'.is_alive = true → (l.getD i default).is_alive = true) :
    NoOverlap (l.set i u') := by
  by_cases hib : i < l.length
  · intro a c ha hc hne halA halC
    rw [List.length_set] at ha hc
    by_cases hia : a = i
    · subst hia
      have hcne : a ≠ c := hne
      rw [getD_set_eq l a u' ha] at halA ⊢
      rw [getD_set_ne l a c u' hne] at halC ⊢
      rw [hx, hy]
      exact hno a c ha hc hne (hal halA) halC
    · by_cases hic : c = i
      · subst hic
        rw [getD_set_ne l c a u' (fun he => hia he.symm)] at halA ⊢
        rw [getD_set_eq l c u' hc] at halC ⊢
        rw [hx, hy]
        exact hno a c ha hc hne halA (hal halC)
      · rw [getD_set_ne l i a u' (fun he => hia he.symm)] at halA ⊢
        rw [getD_set_ne l i c u' (fun he => hic he.symm)] at halC ⊢
        exact hno a c ha hc hne halA halC
  · rw [List.set_eq_of_length_le (Nat.le_of_not_lt hib)]
    exact hno

theorem noOverlap_set_clear (l : List Unit) (i : Nat) (u' : Unit)
    (hno : NoOverlap l)
    (hclear : tile_clear l i (u'.x, u'.y)) :
    NoOverlap (l.set i u') := by
  by_cases hib : i < l.length
  · intro a c ha hc hne halA halC
    rw [List.length_set] at ha hc
    by_cases hia : a = i
    · subst hia
      rw [getD_set_eq l a u' ha] at halA ⊢
      rw [getD_set_ne l a c u' hne] at halC ⊢
      exact (hclear c hc (fun he => hne he.symm) halC).symm
    · by_cases hic : c = i
      · subst hic
        rw [getD_set_ne l c a u' (fun he => hia he.symm)] at halA ⊢
        rw [getD_set_eq l c u' hc] at halC ⊢
        exact hclear a ha hia halA
      · rw [getD_set_ne l i a u' (fun he => hia he.symm)] at halA ⊢
        rw [getD_set_ne l i c u' (fun he => hic he.symm)] at halC ⊢
        exact hno a c ha hc hne halA halC
  · rw [List.set_eq_of_length_le (Nat.le_of_not_lt hib)]
    exact hno

theorem noOverlap_congr (l l' : List Unit)
    (hlen : l'.length = l.length)
    (hsim : ∀ j, j < l.length →
      (l'.getD j default).x = (l.getD j default).x
      ∧ (l'.getD j default).y = (l.getD j default).y
      ∧ (l'.getD j default).is_alive = (l.getD j default).is_alive)
    (hno : NoOverlap l) : NoOverlap l' := by
  intro a c ha hc hne halA halC
  rw [hlen] at ha hc
  obtain ⟨hax, hay, haal⟩ := hsim a ha
  obtain ⟨hcx, hcy, hcal⟩ := hsim c hc
  rw [haal] at halA
  rw [hcal] at halC
  rw [hax, hay, hcx, hcy]
  exact hno a c ha hc hne halA halC

theorem tile_clear_of_mem (l : List Unit) (i : Nat) (t : Int × Int)
    (h : ∀ u ∈ l, u.is_alive = true → (u.x, u.y) ≠ t) : tile_clear l i t :=
  fun j hj _ halive => h _ (getD_mem l j hj) halive

theorem tile_clear_of_others (ps es : List Unit) (i : Nat) (t : Int × Int)
    (h : ∀ u ∈ ps.eraseIdx i ++ es, u.is_alive = true → (u.x, u.y) ≠ t) :
    tile_clear (ps ++ es) i t := by
  intro j hj hne halive
  rw [List.length_append] at hj
  by_cases hjp : j < ps.length
  · rw [getD_append_left ps es j hjp] at halive ⊢
    exact h _ (List.mem_append_left _ (getD_mem_eraseIdx ps i j hjp hne))
      halive
  · have hle : ps.length ≤ j := Nat.le_of_not_lt hjp
    rw [getD_append_right ps es j hle] at halive ⊢
    exact h _ (List.mem_append_right _ (getD_mem es _ (by omega))) halive

theorem tile_clear_set (l : List Unit) (i : Nat) (u' : Unit) (t : Int × Int)
    (h : tile_clear l i t) : tile_clear (l.set i u') i t := by
  intro j hj hne halive
  rw [List.length_set] at hj
  rw [getD_set_ne l i j u' (fun he => hne he.symm)] at halive ⊢
  exact h j hj hne halive

theorem py_min_mem {α : Type} (f : α → Nat) (a : α) (l : List α) :
    py_min f a l ∈ a :: l := by
  obtain ⟨l₁, l₂, heq, _⟩ := py_min_split f l a
  rw [heq]
  exact List.mem_append_right _ (List.mem_cons_self _ _)

theorem choose_target_some_facts (e : Unit) (ps : List Unit) (t : Nat)
    (h : choose_target e ps = some t) :
    t < ps.length ∧ (ps.getD t default).is_alive = true := by
  rw [choose_target] at h
  cases hL : living_player_idxs ps with
  | nil =>
    rw [hL] at h
    exact absurd h (by simp)
  | cons a l =>
    rw [hL] at h
    have ht := Option.some.inj h
    have hmem : t ∈ living_player_idxs ps := by
      rw [hL, ← ht]
      exact py_min_mem _ _ _
    exact (living_player_idxs_mem ps t).mp hmem

theorem find_idx_some_facts (p : Unit → Bool) :
    ∀ (l : List Unit) (i : Nat), find_idx p l = some i →
      i < l.length ∧ p (l.getD i default) = true := by
  intro l
  induction l with
  | nil =>
    intro i h
    exact absurd h (by simp [find_idx])
  | cons a l' ih =>
    intro i h
    rw [find_idx] at h
    by_cases hp : p a = true
    · rw [if_pos hp] at h
      rcases Option.some.inj h with rfl
      exact ⟨by simp, hp⟩
    · rw [if_neg hp] at h
      cases hrec : find_idx p l' with
      | none =>
        rw [hrec] at h
        exact absurd h (by simp)
      | some i' =>
        rw [hrec] at h
        simp only [Option.map_some'] at h
        rcases Option.some.inj h with rfl
        obtain ⟨hlt, hpred⟩ := ih i' hrec
        exact ⟨by simpa using hlt, hpred⟩

theorem tile_free_spec (units : List Unit) (n : Int × Int)
    (h : tile_free units n = true) :
    ∀ u ∈ units, u.is_alive = true → (u.x, u.y) ≠ n := by
  rw [tile_free, Bool.and_eq_true] at h
  have hocc : occupied_by_living units n.1 n.2 = false := by
    have := h.2
    revert this
    cases occupied_by_living units n.1 n.2 <;> simp
  exact (occupied_eq_false_iff units n.1 n.2).mp hocc

theorem enemy_move_dest_free (e target : Unit) (units : List Unit)
    (n : Int × Int) (h : enemy_move_dest e target units = some n) :
    tile_free units n = true := by
  rw [enemy_move_dest] at h
  cases hf : (preferred_candidates e target).find? (tile_free units) with
  | some m =>
    rw [hf] at h
    rcases Option.some.inj h with rfl
    exact List.find?_some hf
  | none =>
    rw [hf] at h
    exact List.find?_some h

theorem compute_valid_moves_free (selected : Unit)
    (others enemies : List Unit) :
    ∀ t ∈ compute_valid_moves selected others enemies,
      ∀ u ∈ others, u.is_alive = true → (u.x, u.y) ≠ t := by
  intro t ht
  have := bfs_free others enemies selected.movement 50
    [(selected.x, selected.y)] [((selected.x, selected.y), 0)] []
    (by intro t' ht'; simp at ht') t ht
  exact (occupied_eq_false_iff others t.1 t.2).mp this

theorem after_player_action_states (b : Battle) :
    (after_player_action b).state = BState.victory
    ∨ (after_player_action b).state = BState.enemy_turn
    ∨ (after_player_action b).state = BState.player_select := by
  rw [after_player_action]
  split
  · exact Or.inl rfl
  · split
    · exact Or.inr (Or.inl rfl)
    · exact Or.inr (Or.inr rfl)

theorem battleInv_after (b2 : Battle)
    (h : NoOverlap (all_units b2)) : BattleInv (after_player_action b2) := by
  refine ⟨?_, ?_, ?_⟩
  · show NoOverlap ((after_player_action b2).player_units
      ++ (after_player_action b2).enemy_units)
    rw [(after_player_action_facts b2).2.1, (after_player_action_facts b2).1]
    exact h
  · intro hma
    rcases after_player_action_states b2 with hs | hs | hs <;>
      rcases hma with hm | hm <;> rw [hs] at hm <;> exact absurd hm (by simp)
  · intro hm
    rcases after_player_action_states b2 with hs | hs | hs <;>
      rw [hs] at hm <;> exact absurd hm (by simp)

theorem attack_fields (a d : Unit) :
    (attack a d).1.x = d.x ∧ (attack a d).1.y = d.y := by
  simp only [attack]
  split <;> exact ⟨rfl, rfl⟩

theorem enemy_hit_fields (e t : Unit) :
    (enemy_hit e t).1.x = t.x ∧ (enemy_hit e t).1.y = t.y := by
  simp only [enemy_hit]
  split <;> exact ⟨rfl, rfl⟩

theorem enemy_turn_cursor_enemy (b2 : Battle) :
    (enemy_turn_cursor b2).enemy_units = b2.enemy_units := by
  rw [enemy_turn_cursor]
  split <;> rfl

theorem reset_fields (ps : List Unit) (j : Nat) (hj : j < ps.length) :
    ((reset_acted ps).getD j default).x = (ps.getD j default).x
    ∧ ((reset_acted ps).getD j default).y = (ps.getD j default).y
    ∧ ((reset_acted ps).getD j default).is_alive
        = (ps.getD j default).is_alive := by
  have hlen : (reset_acted ps).length = ps.length := by simp [reset_acted]
  rw [getD_eq_getElem _ j (by omega), getD_eq_getElem ps j hj]
  simp [reset_acted, Unit.is_alive]

theorem enemy_turn_finish_occ (b1 : Battle)
    (h : NoOverlap (all_units b1)) :
    NoOverlap (all_units (enemy_turn_finish b1)) := by
  rw [enemy_turn_finish]
  split
  · exact h
  · show NoOverlap ((enemy_turn_cursor _).player_units
      ++ (enemy_turn_cursor _).enemy_units)
    rw [(enemy_turn_cursor_fields _).1, enemy_turn_cursor_enemy]
    show NoOverlap (reset_acted b1.player_units ++ b1.enemy_units)
    refine noOverlap_congr (all_units b1) _ ?_ ?_ h
    · simp [all_units, reset_acted]
    · intro j hj
      have hj' : j < b1.player_units.length + b1.enemy_units.length := by
        simpa [all_units] using hj
      show ((reset_acted b1.player_units ++ b1.enemy_units).getD j default).x
            = ((b1.player_units ++ b1.enemy_units).getD j default).x
        ∧ ((reset_acted b1.player_units ++ b1.enemy_units).getD j default).y
            = ((b1.player_units ++ b1.enemy_units).getD j default).y
        ∧ ((reset_acted b1.player_units
              ++ b1.enemy_units).getD j default).is_alive
            = ((b1.player_units ++ b1.enemy_units).getD j default).is_alive
      by_cases hjp : j < b1.player_units.length
      · rw [getD_append_left _ _ _ (by simpa [reset_acted] using hjp),
          getD_append_left _ _ _ hjp]
        exact reset_fields b1.player_units j hjp
      · have hle := Nat.le_of_not_lt hjp
        rw [getD_append_right _ _ _ (by simpa [reset_acted] using hle),
          getD_append_right _ _ _ hle]
        simp [reset_acted]

theorem occ_enemy_move (b : Battle) (i : Nat) (e target : Unit)
    (h : NoOverlap (all_units b)) :
    NoOverlap (all_units (enemy_act_move b i e target)) := by
  rw [enemy_act_move]
  cases hdest : enemy_move_dest e target (all_units b) with
  | none => exact h
  | some n =>
    show NoOverlap (b.player_units
      ++ b.enemy_units.set i { e with x := n.1, y := n.2 })
    rw [set_append_right]
    refine noOverlap_set_clear _ _ _ h ?_
    refine tile_clear_of_mem _ _ _ ?_
    intro u hu ha
    exact tile_free_spec _ _
      (enemy_move_dest_free e target (all_units b) n hdest) u hu ha

theorem occ_set_player_hit (b : Battle) (t : Nat) (u' : Unit) (m : String)
    (h : NoOverlap (all_units b)) (ht : t < b.player_units.length)
    (hx : u'.x = (b.player_units.getD t default).x)
    (hy : u'.y = (b.player_units.getD t default).y)
    (hal : u'.is_alive = true →
      (b.player_units.getD t default).is_alive = true) :
    NoOverlap (all_units
      { b with player_units := b.player_units.set t u', message := m }) := by
  show NoOverlap (b.player_units.set t u' ++ b.enemy_units)
  rw [set_append_left _ _ _ _ ht]
  refine noOverlap_set_same_pos _ _ _ h ?_ ?_ ?_
  · rw [getD_append_left _ _ _ ht]
    exact hx
  · rw [getD_append_left _ _ _ ht]
    exact hy
  · rw [getD_append_left _ _ _ ht]
    exact hal

theorem enemy_act_occ (b : Battle) (i : Nat)
    (h : NoOverlap (all_units b)) :
    NoOverlap (all_units (enemy_act b i).1) := by
  simp only [enemy_act]
  cases ha : (b.enemy_units.getD i default).is_alive with
  | false => exact h
  | true =>
    cases hct : choose_target (b.enemy_units.getD i default) b.player_units
      with
    | none => exact h
    | some t =>
      obtain ⟨ht, halive⟩ := choose_target_some_facts _ _ _ hct
      by_cases hd : (b.enemy_units.getD i default).distance_to
          (b.player_units.getD t default) = 1
      all_goals simp only [List.getD_eq_getElem?_getD] at hd
      · simp only [Bool.not_true, Bool.false_eq_true, if_false]
        simp [hd]
        simp only [← List.getD_eq_getElem?_getD]
        exact occ_set_player_hit b t _ _ h ht (enemy_hit_fields _ _).1
          (enemy_hit_fields _ _).2 (fun _ => halive)
      · simp only [Bool.not_true, Bool.false_eq_true, if_false]
        simp [hd]
        exact occ_enemy_move b i _ _ h

theorem enemy_loop_occ : ∀ (l : List Nat) (b : Battle),
    NoOverlap (all_units b) → NoOverlap (all_units (enemy_loop b l).1) := by
  intro l
  induction l with
  | nil =>
    intro b h
    exact h
  | cons i rest ih =>
    intro b h
    simp only [enemy_loop]
    by_cases h2 : (enemy_act b i).2 = true
    · rw [if_pos h2]
      exact enemy_act_occ b i h
    · rw [if_neg h2]
      exact ih _ (enemy_act_occ b i h)

theorem battleInv_enemy_turn (b : Battle)
    (h : NoOverlap (all_units b)) : BattleInv (enemy_turn b) := by
  have hocc : NoOverlap (all_units (enemy_turn b)) := by
    rw [enemy_turn]
    by_cases h2 : (enemy_loop b (List.range b.enemy_units.length)).2 = true
    · rw [if_pos h2]
      exact enemy_loop_occ _ b h
    · rw [if_neg h2]
      exact enemy_turn_finish_occ _ (enemy_loop_occ _ b h)
  refine ⟨hocc, ?_, ?_⟩
  · intro hma
    rcases (enemy_turn_facts b).1 with hs | hs <;>
      rcases hma with hm | hm <;> rw [hs] at hm <;> exact absurd hm (by simp)
  · intro hm
    rcases (enemy_turn_facts b).1 with hs | hs <;> rw [hs] at hm <;>
      exact absurd hm (by simp)

theorem battleInv_escape (b : Battle) (hinv : BattleInv b) :
    BattleInv (handle_escape b) := by
  obtain ⟨hocc, hma, hmv⟩ := hinv
  rw [handle_escape]
  cases hst : b.state <;> cases hsel : b.selected_unit <;>
    cases horig : b.original_pos
  case player_move.some.some i p =>
    obtain ⟨i', p', hsel', hlen', horig', hclear'⟩ := hma (Or.inl hst)
    rw [hsel] at hsel'
    rcases Option.some.inj hsel' with rfl
    rw [horig] at horig'
    rcases Option.some.inj horig' with rfl
    refine ⟨?_, by simp [cancel_selection], by simp [cancel_selection]⟩
    show NoOverlap (b.player_units.set i _ ++ b.enemy_units)
    rw [set_append_left _ _ _ _ hlen']
    exact noOverlap_set_clear _ _ _ hocc hclear'
  case player_attack.some.some i p =>
    obtain ⟨i', p', hsel', hlen', horig', hclear'⟩ := hma (Or.inr hst)
    rw [hsel] at hsel'
    rcases Option.some.inj hsel' with rfl
    rw [horig] at horig'
    rcases Option.some.inj horig' with rfl
    refine ⟨?_, by simp [cancel_selection], by simp [cancel_selection]⟩
    show NoOverlap (b.player_units.set i _ ++ b.enemy_units)
    rw [set_append_left _ _ _ _ hlen']
    exact noOverlap_set_clear _ _ _ hocc hclear'
  all_goals exact ⟨hocc, by simp, by simp⟩

theorem battleInv_select_enter (b : Battle) (hinv : BattleInv b) :
    BattleInv (select_enter b) := by
  obtain ⟨hocc, hma, hmv⟩ := hinv
  rw [select_enter]
  cases hfi : find_idx (fun u =>
      u.x == b.cursor_x && u.y == b.cursor_y && u.is_alive && !u.has_acted)
    b.player_units with
  | none => exact ⟨hocc, hma, hmv⟩
  | some i =>
    obtain ⟨hlen, hpred⟩ := find_idx_some_facts _ _ _ hfi
    have halive : (b.player_units.getD i default).is_alive = true := by
      simp only [Bool.and_eq_true] at hpred
      exact hpred.1.2
    have hiu : (all_units b).getD i default = b.player_units.getD i default :=
      getD_append_left _ _ _ hlen
    have hclear : tile_clear (all_units b) i
        ((b.player_units.getD i default).x,
          (b.player_units.getD i default).y) := by
      intro j hj hne halj
      have hi' : i < (all_units b).length := by
        show i < (b.player_units ++ b.enemy_units).length
        rw [List.length_append]
        omega
      have hne' := hocc j i hj hi' hne halj (by rw [hiu]; exact halive)
      rw [hiu] at hne'
      exact hne'
    refine ⟨hocc, ?_, ?_⟩
    · intro _
      exact ⟨i, _, rfl, hlen, rfl, hclear⟩
    · intro _
      refine ⟨i, rfl, hlen, ?_⟩
      intro t htmem
      exact tile_clear_of_others _ _ _ _
        (compute_valid_moves_free (b.player_units.getD i default)
          (others_of b i) b.enemy_units t htmem)

theorem battleInv_move_enter (b : Battle) (hinv : BattleInv b)
    (hst : b.state = BState.player_move) : BattleInv (move_enter b) := by
  obtain ⟨hocc, hma, hmv⟩ := hinv
  rw [move_enter]
  split
  · exact ⟨hocc, hma, hmv⟩
  · next i hsel =>
    by_cases hmem : ((b.cursor_x, b.cursor_y) ∈ b.valid_moves)
    · rw [if_pos hmem]
      obtain ⟨i₀, hsel₀, hlen₀, hclear₀⟩ := hmv hst
      rw [hsel] at hsel₀
      rcases Option.some.inj hsel₀ with rfl
      obtain ⟨i₁, p₁, hsel₁, hlen₁, horig₁, hclear₁⟩ := hma (Or.inl hst)
      rw [hsel] at hsel₁
      rcases Option.some.inj hsel₁ with rfl
      have hcl := hclear₀ (b.cursor_x, b.cursor_y) hmem
      refine ⟨?_, ?_, ?_⟩
      · show NoOverlap (b.player_units.set i _ ++ b.enemy_units)
        rw [set_append_left _ _ _ _ hlen₀]
        exact noOverlap_set_clear _ _ _ hocc hcl
      · intro _
        refine ⟨i, p₁, hsel, ?_, horig₁, ?_⟩
        · show i < (b.player_units.set i _).length
          rw [List.length_set]
          exact hlen₀
        · show tile_clear (b.player_units.set i _ ++ b.enemy_units) i p₁
          rw [set_append_left _ _ _ _ hlen₀]
          exact tile_clear_set _ _ _ _ hclear₁
      · intro hs
        simp at hs
    · rw [if_neg hmem]
      exact ⟨hocc, hma, hmv⟩

theorem occ_attack_update (ps es : List Unit) (i j : Nat) (A B : Unit)
    (hocc : NoOverlap (ps ++ es))
    (hi : i < ps.length)
    (hAx : A.x = (ps.getD i default).x) (hAy : A.y = (ps.getD i default).y)
    (hAal : A.is_alive = true → (ps.getD i default).is_alive = true)
    (hBx : B.x = (es.getD j default).x) (hBy : B.y = (es.getD j default).y)
    (hBal : B.is_alive = true → (es.getD j default).is_alive = true) :
    NoOverlap (ps.set i A ++ es.set j B) := by
  rw [set_append_left _ _ _ _ hi, set_append_right]
  have hgr : (ps ++ es).getD (ps.length + j) default = es.getD j default := by
    rw [getD_append_right _ _ _ (Nat.le_add_right _ _)]
    simp
  have hL : NoOverlap ((ps ++ es).set (ps.length + j) B) := by
    refine noOverlap_set_same_pos _ _ _ hocc ?_ ?_ ?_
    · rw [hgr]
      exact hBx
    · rw [hgr]
      exact hBy
    · rw [hgr]
      exact hBal
  refine noOverlap_set_same_pos _ _ _ hL ?_ ?_ ?_
  · rw [getD_set_ne _ _ _ _ (by omega), getD_append_left _ _ _ hi]
    exact hAx
  · rw [getD_set_ne _ _ _ _ (by omega), getD_append_left _ _ _ hi]
    exact hAy
  · rw [getD_set_ne _ _ _ _ (by omega), getD_append_left _ _ _ hi]
    exact hAal

theorem battleInv_attack_enter (b : Battle) (hinv : BattleInv b)
    (hst : b.state = BState.player_attack) : BattleInv (attack_enter b) := by
  obtain ⟨hocc, hma, hmv⟩ := hinv
  rw [attack_enter]
  split
  · next j hfi =>
    split
    · next hmem =>
      split
      · next hsel => exact ⟨hocc, hma, hmv⟩
      · next i hsel =>
        obtain ⟨hjlen, hjpred⟩ := find_idx_some_facts _ _ _ hfi
        have haljd : (b.enemy_units.getD j default).is_alive = true := by
          simp only [Bool.and_eq_true] at hjpred
          exact hjpred.2
        obtain ⟨i₁, p₁, hsel₁, hlen₁, _, _⟩ := hma (Or.inr hst)
        rw [hsel] at hsel₁
        rcases Option.some.inj hsel₁ with rfl
        apply battleInv_after
        show NoOverlap (b.player_units.set i _ ++ b.enemy_units.set j _)
        exact occ_attack_update b.player_units b.enemy_units i j _ _ hocc
          hlen₁ rfl rfl (fun h => h) (attack_fields _ _).1 (attack_fields _ _).2
          (fun _ => haljd)
    · next hmem => exact ⟨hocc, hma, hmv⟩
  · next hfi => exact ⟨hocc, hma, hmv⟩

theorem battleInv_space (b : Battle) (hinv : BattleInv b) :
    BattleInv (space_skip b) := by
  obtain ⟨hocc, hma, hmv⟩ := hinv
  rw [space_skip]
  cases hsel : b.selected_unit with
  | none => exact ⟨hocc, hma, hmv⟩
  | some i =>
    apply battleInv_after
    show NoOverlap (b.player_units.set i _ ++ b.enemy_units)
    by_cases hi : i < b.player_units.length
    · rw [set_append_left _ _ _ _ hi]
      refine noOverlap_set_same_pos _ _ _ hocc ?_ ?_ ?_
      · rw [getD_append_left _ _ _ hi]
      · rw [getD_append_left _ _ _ hi]
      · rw [getD_append_left _ _ _ hi]
        exact fun h => h
    · rw [List.set_eq_of_length_le (Nat.le_of_not_lt hi)]
      exact hocc

theorem battleInv_cursor (b : Battle) (k : Key) (hinv : BattleInv b) :
    BattleInv (move_cursor b k) := by
  cases k <;> exact hinv

theorem inv_step (b : Battle) (ev : Ev) (hinv : BattleInv b) :
    BattleInv (step b ev) := by
  cases ev with
  | timer => exact battleInv_enemy_turn b hinv.1
  | key k =>
    show BattleInv (handle_key b k)
    cases k with
    | escape =>
      rw [handle_key]
      by_cases hterm : b.state = BState.victory ∨ b.state = BState.defeat
      · rw [if_pos hterm]
        exact hinv
      · rw [if_neg hterm]
        exact battleInv_escape b hinv
    | enter =>
      rw [handle_key]
      by_cases hterm : b.state = BState.victory ∨ b.state = BState.defeat
      · rw [if_pos hterm]
        exact hinv
      · rw [if_neg hterm]
        by_cases h1 : b.state = BState.player_select
        · rw [if_pos h1]
          exact battleInv_select_enter b hinv
        · rw [if_neg h1]
          by_cases h2 : b.state = BState.player_move
          · rw [if_pos h2]
            exact battleInv_move_enter b hinv h2
          · rw [if_neg h2]
            by_cases h3 : b.state = BState.player_attack
            · rw [if_pos h3]
              exact battleInv_attack_enter b hinv h3
            · rw [if_neg h3]
              exact hinv
    | space =>
      rw [handle_key]
      by_cases hterm : b.state = BState.victory ∨ b.state = BState.defeat
      · rw [if_pos hterm]
        exact hinv
      · rw [if_neg hterm]
        by_cases h3 : b.state = BState.player_attack
        · rw [if_pos h3]
          exact battleInv_space b hinv
        · rw [if_neg h3]
          exact hinv
    | left =>
      show BattleInv (if b.state = BState.victory ∨ b.state = BState.defeat
          then b
        else if b.state = BState.player_select ∨ b.state = BState.player_move
            ∨ b.state = BState.player_attack then
          move_cursor b Key.left
        else b)
      split
      · exact hinv
      · split
        · exact battleInv_cursor b _ hinv
        · exact hinv
    | right =>
      show BattleInv (if b.state = BState.victory ∨ b.state = BState.defeat
          then b
        else if b.state = BState.player_select ∨ b.state = BState.player_move
            ∨ b.state = BState.player_attack then
          move_cursor b Key.right
        else b)
      split
      · exact hinv
      · split
        · exact battleInv_cursor b _ hinv
        · exact hinv
    | up =>
      show BattleInv (if b.state = BState.victory ∨ b.state = BState.defeat
          then b
        else if b.state = BState.player_select ∨ b.state = BState.player_move
            ∨ b.state = BState.player_attack then
          move_cursor b Key.up
        else b)
      split
      · exact hinv
      · split
        · exact battleInv_cursor b _ hinv
        · exact hinv
    | down =>
      show BattleInv (if b.state = BState.victory ∨ b.state = BState.defeat
          then b
        else if b.state = BState.player_select ∨ b.state = BState.player_move
            ∨ b.state = BState.player_attack then
          move_cursor b Key.down
        else b)
      split
      · exact hinv
      · split
        · exact battleInv_cursor b _ hinv
        · exact hinv

theorem battleInv_init (pu eu : Unit) : BattleInv (start_battle pu eu) := by
  refine ⟨?_, ?_, ?_⟩
  · intro i j hi hj hne hai haj
    have h7 : (all_units (start_battle pu eu)).length = 7 := by
      simp [all_units, start_battle, init_battle]
    rw [h7] at hi hj
    interval_cases i <;> interval_cases j <;>
      first
        | exact absurd rfl hne
        | simp [all_units, start_battle, init_battle, Unit.create]
  · intro hma
    rcases hma with hm | hm <;> simp [start_battle, init_battle] at hm
  · intro hm
    simp [start_battle, init_battle] at hm

/-- C8: in every battle state reachable from session construction via
player selections, moves, cancels, attacks, skips, forfeit and
enemy-phase actions, no two living units occupy the same grid tile — the
occupancy invariant is preserved by every operation. -/
theorem occupancy_invariant_reachable (b : Battle) (h : Reached b) :
    NoOverlap (all_units b) := by
  have hinv : BattleInv b := by
    induction h with
    | init pu eu => exact battleInv_init pu eu
    | step ev hr ih => exact inv_step _ ev ih
  exact hinv.1

/-- C8 witness: the freshly constructed session separates the hero
(index 0, tile (1,3)) from the Knight (index 1, tile (1,2)). -/
theorem occupancy_invariant_reachable_witness :
    (((all_units (start_battle (Unit.create "H" 0 0 20 5 4)
          (Unit.create "D" 9 9 12 4 3))).getD 0 default).x,
      ((all_units (start_battle (Unit.create "H" 0 0 20 5 4)
          (Unit.create "D" 9 9 12 4 3))).getD 0 default).y)
    ≠ (((all_units (start_battle (Unit.create "H" 0 0 20 5 4)
          (Unit.create "D" 9 9 12 4 3))).getD 1 default).x,
      ((all_units (start_battle (Unit.create "H" 0 0 20 5 4)
          (Unit.create "D" 9 9 12 4 3))).getD 1 default).y) := by
  have h := occupancy_invariant_reachable _
    (Reached.init (Unit.create "H" 0 0 20 5 4) (Unit.create "D" 9 9 12 4 3))
  exact h 0 1 (by decide) (by decide) (by decide) (by decide) (by decide)

end RPG
